import Mathlib

/-!
# libjnitl: a verification development for `include/jnitl.h`

A shallow embedding of the header-only JNI template library:

* the compile-time type signature engine (`java_string_literal_t`, `java_type_info_t`);
* primitive value marshalling;
* the resource-owning wrappers (`java_global_ref_t`, `java_string_t`,
  `java_primitive_array_t`), run against an explicit model of the JNI boundary that
  records every runtime call.

Pointers and JNI handles are natural numbers, `0` being `nullptr`.  A call through a
null `JNIEnv *` is undefined behaviour and is modelled by `none`.
-/

namespace Jnitl

/-! ## Compile-time string literals -/

/-- The terminating character of a C string. -/
def NUL : Char := Char.ofNat 0

/-- The class template `java_string_literal_t<N>`: `data_` is the member `char data_[N]`,
terminator included.  C++ has no zero-length arrays, hence `N ≥ 1`. -/
structure java_string_literal_t where
  data_ : List Char
  nonempty : data_ ≠ []
deriving DecidableEq

namespace java_string_literal_t

/-- The template parameter `N`. -/
def N (a : java_string_literal_t) : Nat := a.data_.length

/-- The member `static constexpr size_t size_ = N - 1`. -/
def size_ (a : java_string_literal_t) : Nat := a.N - 1

/-- The constructor `java_string_literal_t(const char (&data)[N])` applied to a string
literal: the characters of the literal followed by the terminator. -/
def lit (s : String) : java_string_literal_t := ⟨s.toList ++ [NUL], by simp⟩

/-- The `size_` characters in front of the terminator. -/
def chars (a : java_string_literal_t) : List Char := a.data_.take a.size_

/-- What `c_str()` denotes as a C string: the characters up to the first terminator. -/
def c_str (a : java_string_literal_t) : List Char := a.data_.takeWhile (fun c => c != NUL)

/-- The loop `for (size_t i = 0; i < k; i++) result[off + i] = src[i];`. -/
def copy_loop (src : List Char) (off : Nat) : Nat → List Char → List Char
  | 0, result => result
  | k + 1, result => (copy_loop src off k result).set (off + k) (src.getD k NUL)

/-- The array `char result[n + m - 1]` after the two copy loops and the store of the
terminator in `operator+`. -/
def add_result (a b : java_string_literal_t) : List Char :=
  let n := a.N
  let m := b.N
  let result := List.replicate (n + m - 1) NUL
  let result := copy_loop a.data_ 0 (n - 1) result
  let result := copy_loop b.data_ (n - 1) (m - 1) result
  result.set (n + m - 2) NUL

theorem length_copy_loop (src : List Char) (off k : Nat) (result : List Char) :
    (copy_loop src off k result).length = result.length := by
  induction k with
  | zero => rfl
  | succ k ih => simp [copy_loop, ih]

theorem length_add_result (a b : java_string_literal_t) :
    (add_result a b).length = a.N + b.N - 1 := by
  simp [add_result, length_copy_loop]

theorem N_pos (a : java_string_literal_t) : 1 ≤ a.N := by
  have h := a.nonempty
  unfold N
  cases hd : a.data_ with
  | nil => exact absurd hd h
  | cons c cs => simp

/-- The friend `operator+(java_string_literal_t<n> a, java_string_literal_t<m> b)`. -/
def add (a b : java_string_literal_t) : java_string_literal_t :=
  ⟨add_result a b, by
    intro h
    have hl := length_add_result a b
    rw [h] at hl
    have ha := N_pos a
    have hb := N_pos b
    simp at hl
    omega⟩

instance : Add java_string_literal_t := ⟨add⟩

end java_string_literal_t

open java_string_literal_t

/-! ## The type signature engine -/

/-- The native types `java_type_info_t` is specialised for (function shapes apart). -/
inductive JType where
  | void
  | bool
  | unsigned_char
  | char
  | short
  | int
  | long
  | float
  | double
  | java_object_t (N : java_string_literal_t)
  | vector (T : JType)
  | array (T : JType) (N : Nat)
  | string
deriving DecidableEq

namespace java_type_info_t

/-- The member `java_type_info_t<T>::signature` of each specialisation. -/
def signature : JType → java_string_literal_t
  | .void => lit "V"
  | .bool => lit "Z"
  | .unsigned_char => lit "B"
  | .char => lit "C"
  | .short => lit "S"
  | .int => lit "I"
  | .long => lit "L"
  | .float => lit "F"
  | .double => lit "D"
  | .java_object_t N => lit "L" + N + lit ";"
  | .vector T => lit "[" + signature T
  | .array T _ => lit "[" + signature T
  | .string => lit "Ljava/lang/String;"

/-- The fold expression `(java_type_info_t<A>::signature + ...)`, a unary right fold over
the non-empty pack `A0, As...`. -/
def fold_signature : JType → List JType → java_string_literal_t
  | A0, [] => signature A0
  | A0, A1 :: As => signature A0 + fold_signature A1 As

/-- The member `signature` of the function shape specialisations: `R(void)` for an empty
argument list, `R(A...)` otherwise. -/
def function_signature (R : JType) : List JType → java_string_literal_t
  | [] => lit "()" + signature R
  | A0 :: As => lit "(" + fold_signature A0 As + lit ")" + signature R

/-- The signatures of the argument types, concatenated in declaration order. -/
def argument_chars (A : List JType) : List Char :=
  A.foldr (fun T acc => (signature T).chars ++ acc) []

/-- Array levels wrapped around an element type, outermost first: `none` is
`std::vector<_>`, `some N` is `std::array<_, N>`. -/
def nest : List (Option Nat) → JType → JType
  | [], T => T
  | none :: ls, T => .vector (nest ls T)
  | some N :: ls, T => .array (nest ls T) N

/-- The argument types whose signature can be told apart from what follows it: the
primitive kinds other than `long`, and the object types whose class name has no `;`. -/
def unambiguous : JType → Prop
  | .bool => True
  | .unsigned_char => True
  | .char => True
  | .short => True
  | .int => True
  | .float => True
  | .double => True
  | .java_object_t N => ';' ∉ N.chars
  | _ => False

instance (T : JType) : Decidable (unambiguous T) := by
  cases T <;> unfold unambiguous <;> infer_instance

/-- The first character of the signature of a type. -/
def code (T : JType) : Char := (signature T).data_.headD NUL

/-- Two types are the same primitive kind, or object types with the same class name. -/
def same_representation : JType → JType → Prop
  | .java_object_t N, .java_object_t M => N.chars = M.chars
  | T, U => T = U

instance (T U : JType) : Decidable (same_representation T U) := by
  cases T <;> cases U <;> simp only [same_representation] <;> infer_instance

end java_type_info_t

open java_type_info_t

/-! ## Primitive value marshalling -/

/-- The eight primitive kinds. -/
inductive Primitive where
  | bool
  | unsigned_char
  | char
  | short
  | int
  | long
  | float
  | double
deriving DecidableEq, Repr

/-- The native type of a primitive kind, as a template argument of `java_type_info_t`. -/
def Primitive.type : Primitive → JType
  | .bool => .bool
  | .unsigned_char => .unsigned_char
  | .char => .char
  | .short => .short
  | .int => .int
  | .long => .long
  | .float => .float
  | .double => .double

/-- What the C++ implementation leaves open about the native types: whether plain `char`
is signed, and the width of `long` (32 or 64 bits). -/
structure Platform where
  char_signed : Bool
  long_bits : Nat
deriving DecidableEq, Repr

/-- Conversion of an integer to an unsigned integer type of `bits` bits. -/
def to_unsigned (bits : Nat) (v : Int) : Int := v % 2 ^ bits

/-- Conversion of an integer to a signed (two's complement) integer type of `bits` bits. -/
def to_signed (bits : Nat) (v : Int) : Int := (v + 2 ^ (bits - 1)) % 2 ^ bits - 2 ^ (bits - 1)

/-- The values of the native type of each kind.  Integers stand for themselves, `false`
and `true` are 0 and 1, and a `float` or `double` is given by its 32 or 64 bit pattern. -/
def native_value (p : Platform) : Primitive → Int → Prop
  | .bool, x => x = 0 ∨ x = 1
  | .unsigned_char, x => 0 ≤ x ∧ x < 2 ^ 8
  | .char, x => if p.char_signed then -2 ^ 7 ≤ x ∧ x < 2 ^ 7 else 0 ≤ x ∧ x < 2 ^ 8
  | .short, x => -2 ^ 15 ≤ x ∧ x < 2 ^ 15
  | .int, x => -2 ^ 31 ≤ x ∧ x < 2 ^ 31
  | .long, x => -2 ^ (p.long_bits - 1) ≤ x ∧ x < 2 ^ (p.long_bits - 1)
  | .float, x => 0 ≤ x ∧ x < 2 ^ 32
  | .double, x => 0 ≤ x ∧ x < 2 ^ 64

instance (p : Platform) (T : Primitive) (x : Int) : Decidable (native_value p T x) := by
  cases T <;> unfold native_value <;> infer_instance

/-- Modelled from the spec: the values of the runtime representation
`java_type_info_t<T>::type` of each kind; the typedefs of `jni.h` are not part of the
sources.  `jboolean` is unsigned 8-bit, `jbyte` signed 8-bit, `jchar` unsigned 16-bit,
`jshort`, `jint`, `jlong` signed 16, 32, 64-bit, `jfloat` is `float`, `jdouble` is
`double`. -/
def java_value : Primitive → Int → Prop
  | .bool, x => 0 ≤ x ∧ x < 2 ^ 8
  | .unsigned_char, x => -2 ^ 7 ≤ x ∧ x < 2 ^ 7
  | .char, x => 0 ≤ x ∧ x < 2 ^ 16
  | .short, x => -2 ^ 15 ≤ x ∧ x < 2 ^ 15
  | .int, x => -2 ^ 31 ≤ x ∧ x < 2 ^ 31
  | .long, x => -2 ^ 63 ≤ x ∧ x < 2 ^ 63
  | .float, x => 0 ≤ x ∧ x < 2 ^ 32
  | .double, x => 0 ≤ x ∧ x < 2 ^ 64

instance (T : Primitive) (x : Int) : Decidable (java_value T x) := by
  cases T <;> unfold java_value <;> infer_instance

/-- The member `java_type_info_t<T>::marshall(env, value)` of the primitive
specialisations: the function-style cast of `value` to the runtime representation. -/
def java_type_info_t.marshall : Primitive → Int → Int
  | .bool, value => to_unsigned 8 value
  | .unsigned_char, value => to_signed 8 value
  | .char, value => to_unsigned 16 value
  | .short, value => to_signed 16 value
  | .int, value => to_signed 32 value
  | .long, value => to_signed 64 value
  | .float, value => value
  | .double, value => value

/-- The way back.  The primitive specialisations of `java_type_info_t` have no
`unmarshall` member: a runtime primitive becomes a native value by the implicit
conversion to the declared type `T`, as in the return statement of
`java_method_invoker_t<T(A...)>::call` for an instance receiver. -/
def java_to_native (p : Platform) : Primitive → Int → Int
  | .bool, value => if value = 0 then 0 else 1
  | .unsigned_char, value => to_unsigned 8 value
  | .char, value => if p.char_signed then to_signed 8 value else to_unsigned 8 value
  | .short, value => to_signed 16 value
  | .int, value => to_signed 32 value
  | .long, value => to_signed p.long_bits value
  | .float, value => value
  | .double, value => value

/-! ## The JNI boundary -/

/-- A pointer or JNI handle; `0` is `nullptr`. -/
abbrev Ptr := Nat

/-- Modelled from the spec: the release mode "commit and keep pinned" of
`Release<K>ArrayElements`, the constant `JNI_COMMIT` of `jni.h`, which is not part of the
sources. -/
def JNI_COMMIT : Int := 1

/-- Modelled from the spec: the release mode "abort, discard changes" of
`Release<K>ArrayElements`, the constant `JNI_ABORT` of `jni.h`, which is not part of the
sources. -/
def JNI_ABORT : Int := 2

/-- The union `jvalue` of `jni.h`: the member that was written (`z` boolean, `b` byte, `c`
char, `s` short, `i` int, `j` long, `f` float, `d` double, `l` object) and its value. -/
inductive jvalue where
  | z (value : Int)
  | b (value : Int)
  | c (value : Int)
  | s (value : Int)
  | i (value : Int)
  | j (value : Int)
  | f (value : Int)
  | d (value : Int)
  | l (value : Ptr)
deriving DecidableEq, Repr

/-- The calls into the runtime made through `JNIEnv *`, with their arguments.  The typed
calls `Get<K>ArrayElements`, `Release<K>ArrayElements`, `Call<K>MethodA` and
`CallStatic<K>MethodA` carry their kind `K`. -/
inductive JniCall where
  | NewGlobalRef (obj : Ptr)
  | DeleteGlobalRef (gref : Ptr)
  | GetStringUTFChars (str : Ptr)
  | ReleaseStringUTFChars (str : Ptr) (chars : Ptr)
  | GetArrayElements (K : Primitive) (array : Ptr)
  | ReleaseArrayElements (K : Primitive) (array : Ptr) (elems : Ptr) (mode : Int)
  | FindClass (name : List Char)
  | GetFieldID (clazz : Ptr) (name : List Char) (sig : List Char)
  | GetStaticFieldID (clazz : Ptr) (name : List Char) (sig : List Char)
  | GetMethodID (clazz : Ptr) (name : List Char) (sig : List Char)
  | GetStaticMethodID (clazz : Ptr) (name : List Char) (sig : List Char)
  | CallMethodA (K : Primitive) (obj : Ptr) (methodID : Ptr) (args : List jvalue)
  | CallStaticMethodA (K : Primitive) (clazz : Ptr) (methodID : Ptr) (args : List jvalue)
  | GetDirectBufferAddress (buf : Ptr)
  | GetDirectBufferCapacity (buf : Ptr)
  | NewDirectByteBuffer (address : Ptr) (capacity : Int)
deriving DecidableEq, Repr

/-- The runtime behind `JNIEnv`: `trace` lists the calls made so far, oldest first, and
`answer` gives what the runtime returns to a call, which may depend on all earlier calls. -/
structure Runtime where
  answer : List JniCall → JniCall → Ptr
  trace : List JniCall

/-- A call `env->F(...)`: undefined through a null `env`, otherwise recorded and answered. -/
def Runtime.call (rt : Runtime) (env : Ptr) (c : JniCall) : Option (Ptr × Runtime) :=
  if env = 0 then none else some (rt.answer rt.trace c, { rt with trace := rt.trace ++ [c] })

/-- A runtime whose every call fails, returning null. -/
def failing_runtime : Runtime := ⟨fun _ _ => 0, []⟩

/-- A runtime that answers the `n`-th call (counting from 0) with `100 + n`. -/
def counting_runtime : Runtime := ⟨fun t _ => 100 + t.length, []⟩

/-! ## Object wrappers and global references -/

/-- The members of `java_object_t<N>`: `env_` inherited from `java_value_t`, and
`handle_`. -/
structure java_object_t where
  env_ : Ptr
  handle_ : Ptr
deriving DecidableEq, Repr

namespace java_object_t

/-- The default constructor `java_object_t() : java_value_t() {}`: `env_` is null and
`handle_` is left uninitialised; `indeterminate` is the value it happens to hold. -/
def default_ctor (indeterminate : Ptr) : java_object_t := ⟨0, indeterminate⟩

/-- The constructor `java_object_t(JNIEnv *env, jobject handle)`. -/
def ctor (env handle : Ptr) : java_object_t := ⟨env, handle⟩

/-- The member `swap`: `java_value_t::swap` exchanges `env_`, then `handle_` is
exchanged.  Returns the new `*this` and the new `that`. -/
def swap (self that : java_object_t) : java_object_t × java_object_t :=
  ({ self with env_ := that.env_, handle_ := that.handle_ },
   { that with env_ := self.env_, handle_ := self.handle_ })

end java_object_t

/-- The class template `java_global_ref_t<N>`, which adds no member to `java_object_t<N>`. -/
structure java_global_ref_t extends java_object_t
deriving DecidableEq, Repr

namespace java_global_ref_t

/-- The constructor `java_global_ref_t(JNIEnv *env, jobject handle)`. -/
def ctor (rt : Runtime) (env handle : Ptr) : Option (Runtime × java_global_ref_t) :=
  match rt.call env (.NewGlobalRef handle) with
  | none => none
  | some (gref, rt1) => some (rt1, ⟨java_object_t.ctor env gref⟩)

/-- The constructor `java_global_ref_t(const java_object_t<N> &object)`. -/
def of_object (rt : Runtime) (object : java_object_t) : Option (Runtime × java_global_ref_t) :=
  ctor rt object.env_ object.handle_

/-- The destructor `~java_global_ref_t()`. -/
def destructor (rt : Runtime) (g : java_global_ref_t) : Option Runtime :=
  if g.handle_ ≠ 0 then (rt.call g.env_ (.DeleteGlobalRef g.handle_)).map Prod.snd else some rt

/-- The inherited `swap`. -/
def swap (self that : java_global_ref_t) : java_global_ref_t × java_global_ref_t :=
  let r := java_object_t.swap self.tojava_object_t that.tojava_object_t
  (⟨r.1⟩, ⟨r.2⟩)

/-- The move assignment `*this = std::move(that)`. -/
def move_assign (self that : java_global_ref_t) : java_global_ref_t × java_global_ref_t :=
  swap self that

/-- The move assignment `ws[dst] = std::move(ws[src])` among the wrappers `ws`. -/
def assign (ws : List java_global_ref_t) (dst src : Nat) : List java_global_ref_t :=
  match ws[dst]?, ws[src]? with
  | some d, some s =>
    let r := move_assign d s
    (ws.set dst r.1).set src r.2
  | _, _ => ws

/-- A sequence of move assignments, each given as `(dst, src)`. -/
def assigns (ws : List java_global_ref_t) : List (Nat × Nat) → List java_global_ref_t
  | [] => ws
  | m :: ms => assigns (assign ws m.1 m.2) ms

/-- Destruction of every wrapper of a list, in list order. -/
def destroy_all (rt : Runtime) : List java_global_ref_t → Option Runtime
  | [] => some rt
  | g :: gs =>
    match destructor rt g with
    | none => none
    | some rt1 => destroy_all rt1 gs

/-- The calls a run added to the trace. -/
def new_calls (before after : Runtime) : List JniCall := after.trace.drop before.trace.length

/-- One `DeleteGlobalRef` call for each wrapper of the list that holds a non-null handle. -/
def deletes (ws : List java_global_ref_t) : List JniCall :=
  (ws.filter fun w => w.handle_ ≠ 0).map fun w => JniCall.DeleteGlobalRef w.handle_

/-- Two objects are promoted, `g1` from `a` and `g2` from `b`; then `g2 = std::move(g1)`,
and the moved-from `g1` is destroyed.  Returns `g2`, `g1` after the move and the calls the
destructor of `g1` made. -/
def moved_from_scenario (rt : Runtime) (a b : java_object_t) :
    Option (java_global_ref_t × java_global_ref_t × List JniCall) :=
  match of_object rt a with
  | none => none
  | some (rt1, g1) =>
    match of_object rt1 b with
    | none => none
    | some (rt2, g2) =>
      let r := move_assign g2 g1
      match destructor rt2 r.2 with
      | none => none
      | some rt3 => some (r.1, r.2, new_calls rt2 rt3)

end java_global_ref_t

/-! ## String views -/

/-- The members of `java_string_t`: those of `java_object_t<"java/lang/String">` and the
cached decode buffer `utf8_`. -/
structure java_string_t extends java_object_t where
  utf8_ : Ptr
deriving DecidableEq, Repr

/-- The three ways to read a string view. -/
inductive StringRead where
  | const_char_ptr
  | c_str
  | std_string
deriving DecidableEq, Repr

namespace java_string_t

/-- The constructor `java_string_t(JNIEnv *env, jobject handle)`. -/
def ctor (env handle : Ptr) : java_string_t := ⟨java_object_t.ctor env handle, 0⟩

/-- The conversion `operator const char *()`; returns the pointer, the runtime and the
view with its `mutable` cache. -/
def operator_const_char_ptr (rt : Runtime) (s : java_string_t) :
    Option (Ptr × Runtime × java_string_t) :=
  if s.utf8_ = 0 then
    match rt.call s.env_ (.GetStringUTFChars s.handle_) with
    | none => none
    | some (chars, rt1) => some (chars, rt1, { s with utf8_ := chars })
  else some (s.utf8_, rt, s)

/-- The member `c_str()`. -/
def c_str (rt : Runtime) (s : java_string_t) : Option (Ptr × Runtime × java_string_t) :=
  operator_const_char_ptr rt s

/-- The conversion `operator std::string()`: the text is copied from the pointer the
conversion to `const char *` returns, which must not be null; the result is given as that
pointer. -/
def operator_std_string (rt : Runtime) (s : java_string_t) :
    Option (Ptr × Runtime × java_string_t) :=
  match operator_const_char_ptr rt s with
  | none => none
  | some (chars, rt1, s1) => if chars = 0 then none else some (chars, rt1, s1)

/-- One read of a view. -/
def read : StringRead → Runtime → java_string_t → Option (Ptr × Runtime × java_string_t)
  | .const_char_ptr => operator_const_char_ptr
  | .c_str => c_str
  | .std_string => operator_std_string

/-- Repeated reads of the same view; returns the pointer each read returned. -/
def reads : List StringRead → Runtime → java_string_t →
    Option (List Ptr × Runtime × java_string_t)
  | [], rt, s => some ([], rt, s)
  | r :: rs, rt, s =>
    match read r rt s with
    | none => none
    | some (chars, rt1, s1) =>
      match reads rs rt1 s1 with
      | none => none
      | some (ps, rt2, s2) => some (chars :: ps, rt2, s2)

/-- The destructor `~java_string_t()`. -/
def destructor (rt : Runtime) (s : java_string_t) : Option Runtime :=
  if s.utf8_ ≠ 0 then
    (rt.call s.env_ (.ReleaseStringUTFChars s.handle_ s.utf8_)).map Prod.snd
  else some rt

end java_string_t

/-! ## Primitive array views -/

/-- The members of `java_primitive_array_t<T, U>` together with the element kind `K` that
selects the specialisation `java_array_t<T>` and with it the overrides of
`get_array_elements` and `release_array_elements`. -/
structure java_primitive_array_t extends java_object_t where
  K : Primitive
  elements_ : Ptr
deriving DecidableEq, Repr

namespace java_primitive_array_t

/-- The constructor `java_array_t(JNIEnv *env, j<K>Array handle)`. -/
def ctor (K : Primitive) (env handle : Ptr) : java_primitive_array_t :=
  ⟨java_object_t.ctor env handle, K, 0⟩

/-- The override `get_array_elements()`: `env_->Get<K>ArrayElements(*this, nullptr)`. -/
def get_array_elements (rt : Runtime) (a : java_primitive_array_t) : Option (Ptr × Runtime) :=
  rt.call a.env_ (.GetArrayElements a.K a.handle_)

/-- The override `release_array_elements(mode)`:
`env_->Release<K>ArrayElements(*this, elements_, mode)`. -/
def release_array_elements (rt : Runtime) (a : java_primitive_array_t) (mode : Int) :
    Option Runtime :=
  (rt.call a.env_ (.ReleaseArrayElements a.K a.handle_ a.elements_ mode)).map Prod.snd

/-- The conversion `operator T *()`. -/
def operator_T_ptr (rt : Runtime) (a : java_primitive_array_t) :
    Option (Ptr × Runtime × java_primitive_array_t) :=
  if a.elements_ = 0 then
    match get_array_elements rt a with
    | none => none
    | some (elems, rt1) => some (elems, rt1, { a with elements_ := elems })
  else some (a.elements_, rt, a)

/-- The subscript `operator[](idx)`: the element `idx` of the array at the pointer the
conversion to `T *` returns, given as that pointer and the index. -/
def operator_index (rt : Runtime) (a : java_primitive_array_t) (idx : Nat) :
    Option ((Ptr × Nat) × Runtime × java_primitive_array_t) :=
  match operator_T_ptr rt a with
  | none => none
  | some (elems, rt1, a1) => some ((elems, idx), rt1, a1)

/-- The member `commit()`. -/
def commit (rt : Runtime) (a : java_primitive_array_t) : Option Runtime :=
  if a.elements_ ≠ 0 then release_array_elements rt a JNI_COMMIT else some rt

/-- The member `abort()`. -/
def abort (rt : Runtime) (a : java_primitive_array_t) :
    Option (Runtime × java_primitive_array_t) :=
  if a.elements_ = 0 then some (rt, a)
  else
    match release_array_elements rt a JNI_ABORT with
    | none => none
    | some rt1 => some (rt1, { a with elements_ := 0 })

/-- The destructor `~java_array_t()` of the primitive specialisations. -/
def destructor (rt : Runtime) (a : java_primitive_array_t) : Option Runtime :=
  if a.elements_ ≠ 0 then release_array_elements rt a 0 else some rt

end java_primitive_array_t

/-! ## Runs of operations on a primitive array view -/

/-- An operation on a primitive array view: a pointer access, an index access, `commit()`
or `abort()`. -/
inductive ArrayOp where
  | pointer
  | index (idx : Nat)
  | commit
  | abort
deriving DecidableEq, Repr

/-- Whether an operation is a pointer or index access. -/
def ArrayOp.is_access : ArrayOp → Bool
  | .pointer => true
  | .index _ => true
  | _ => false

namespace java_primitive_array_t

/-- One operation on a view; an access returns the pointer it read through. -/
def step : ArrayOp → Runtime → java_primitive_array_t →
    Option (Option Ptr × Runtime × java_primitive_array_t)
  | .pointer, rt, a =>
    match operator_T_ptr rt a with
    | none => none
    | some (elems, rt1, a1) => some (some elems, rt1, a1)
  | .index idx, rt, a =>
    match operator_index rt a idx with
    | none => none
    | some (r, rt1, a1) => some (some r.1, rt1, a1)
  | .commit, rt, a =>
    match commit rt a with
    | none => none
    | some rt1 => some (none, rt1, a)
  | .abort, rt, a =>
    match abort rt a with
    | none => none
    | some (rt1, a1) => some (none, rt1, a1)

/-- A sequence of operations on the same view; returns what each operation returned. -/
def run : List ArrayOp → Runtime → java_primitive_array_t →
    Option (List (Option Ptr) × Runtime × java_primitive_array_t)
  | [], rt, a => some ([], rt, a)
  | op :: ops, rt, a =>
    match step op rt a with
    | none => none
    | some (r, rt1, a1) =>
      match run ops rt1 a1 with
      | none => none
      | some (rs, rt2, a2) => some (r :: rs, rt2, a2)

/-- What a sequence of operations without `abort()` returns and calls on a view pinned at
`a.elements_`: each access returns the cached pointer, each `commit()` makes one release
call with the mode `JNI_COMMIT`. -/
def pinned_results (a : java_primitive_array_t) : List ArrayOp → List (Option Ptr)
  | [] => []
  | op :: ops => (if op.is_access then some a.elements_ else none) :: pinned_results a ops

/-- The release calls of the `commit()` operations of a sequence on a pinned view. -/
def commit_calls (a : java_primitive_array_t) : List ArrayOp → List JniCall
  | [] => []
  | op :: ops =>
    if op = .commit then
      .ReleaseArrayElements a.K a.handle_ a.elements_ JNI_COMMIT :: commit_calls a ops
    else commit_calls a ops

/-- The number of pin calls among `calls`, made after the calls `before`, that the runtime
answered with a non-null pointer. -/
def successful_pins (answer : List JniCall → JniCall → Ptr) :
    List JniCall → List JniCall → Nat
  | _, [] => 0
  | before, c :: cs =>
    (match c with
      | .GetArrayElements _ _ => if answer before c = 0 then 0 else 1
      | _ => 0) + successful_pins answer (before ++ [c]) cs

/-- Whether a call is an array release with the default mode 0 or the mode `JNI_ABORT`,
that is, one that ends a pin. -/
def is_final_release : JniCall → Bool
  | .ReleaseArrayElements _ _ _ mode => mode = 0 || mode = JNI_ABORT
  | _ => false

/-- The number of array releases among `calls` that end a pin. -/
def final_releases (calls : List JniCall) : Nat := calls.countP is_final_release

/-- Whether a view holds a pinned pointer, as 0 or 1. -/
def pinned (a : java_primitive_array_t) : Nat := if a.elements_ = 0 then 0 else 1

end java_primitive_array_t

/-! ## Default construction and moves of the object wrappers -/

namespace java_object_t

/-- The move assignment `*this = std::move(that)`. -/
def move_assign (self that : java_object_t) : java_object_t × java_object_t := swap self that

/-- The move constructor: the members are default-initialised, then swapped with `that`. -/
def move_ctor (indeterminate : Ptr) (that : java_object_t) : java_object_t × java_object_t :=
  swap (default_ctor indeterminate) that

end java_object_t

namespace java_global_ref_t

/-- The default constructor `java_global_ref_t() : java_object_t<N>() {}`. -/
def default_ctor (indeterminate : Ptr) : java_global_ref_t :=
  ⟨java_object_t.default_ctor indeterminate⟩

end java_global_ref_t

namespace java_string_t

/-- The default constructor `java_string_t() : java_object_t(), utf8_(nullptr) {}`. -/
def default_ctor (indeterminate : Ptr) : java_string_t :=
  ⟨java_object_t.default_ctor indeterminate, 0⟩

/-- The member `swap`: the swap of the base, then `utf8_` is exchanged. -/
def swap (self that : java_string_t) : java_string_t × java_string_t :=
  let r := java_object_t.swap self.tojava_object_t that.tojava_object_t
  ({ self with tojava_object_t := r.1, utf8_ := that.utf8_ },
   { that with tojava_object_t := r.2, utf8_ := self.utf8_ })

/-- The move assignment `*this = std::move(that)`. -/
def move_assign (self that : java_string_t) : java_string_t × java_string_t := swap self that

end java_string_t

namespace java_primitive_array_t

/-- The default constructor `java_array_t() : java_primitive_array_t() {}`, with
`java_primitive_array_t() : java_object_t(), elements_(nullptr) {}`. -/
def default_ctor (K : Primitive) (indeterminate : Ptr) : java_primitive_array_t :=
  ⟨java_object_t.default_ctor indeterminate, K, 0⟩

/-- The member `swap`: the swap of the base, then `elements_` is exchanged.  The element
kind belongs to the type of the two views and stays. -/
def swap (self that : java_primitive_array_t) :
    java_primitive_array_t × java_primitive_array_t :=
  let r := java_object_t.swap self.tojava_object_t that.tojava_object_t
  ({ self with tojava_object_t := r.1, elements_ := that.elements_ },
   { that with tojava_object_t := r.2, elements_ := self.elements_ })

/-- The move assignment `*this = std::move(that)`. -/
def move_assign (self that : java_primitive_array_t) :
    java_primitive_array_t × java_primitive_array_t :=
  swap self that

end java_primitive_array_t

/-- The members of `java_byte_buffer_t`: those of `java_object_t<"java/nio/ByteBuffer">`,
the address `data_` and the capacity `size_`. -/
structure java_byte_buffer_t extends java_object_t where
  data_ : Ptr
  size_ : Nat
deriving DecidableEq, Repr

namespace java_byte_buffer_t

/-- The default constructor `java_byte_buffer_t() : java_object_t(), data_(nullptr),
size_(0) {}`. -/
def default_ctor (indeterminate : Ptr) : java_byte_buffer_t :=
  ⟨java_object_t.default_ctor indeterminate, 0, 0⟩

/-- The member `swap`: the swap of the base, then `data_` and `size_` are exchanged. -/
def swap (self that : java_byte_buffer_t) : java_byte_buffer_t × java_byte_buffer_t :=
  let r := java_object_t.swap self.tojava_object_t that.tojava_object_t
  ({ self with tojava_object_t := r.1, data_ := that.data_, size_ := that.size_ },
   { that with tojava_object_t := r.2, data_ := self.data_, size_ := self.size_ })

/-- The move assignment `*this = std::move(that)`. -/
def move_assign (self that : java_byte_buffer_t) : java_byte_buffer_t × java_byte_buffer_t :=
  swap self that

end java_byte_buffer_t

/-- The class template `java_class_t<N, T>`, which adds no member to
`java_object_t<"java/lang/Class">`. -/
structure java_class_t extends java_object_t
deriving DecidableEq, Repr

namespace java_class_t

/-- The default constructor `java_class_t() : java_object_t() {}`. -/
def default_ctor (indeterminate : Ptr) : java_class_t :=
  ⟨java_object_t.default_ctor indeterminate⟩

/-- The constructor `java_class_t(JNIEnv *env, jclass clazz)`. -/
def ctor (env clazz : Ptr) : java_class_t := ⟨java_object_t.ctor env clazz⟩

/-- The inherited `swap`. -/
def swap (self that : java_class_t) : java_class_t × java_class_t :=
  let r := java_object_t.swap self.tojava_object_t that.tojava_object_t
  (⟨r.1⟩, ⟨r.2⟩)

/-- The move assignment `*this = std::move(that)`. -/
def move_assign (self that : java_class_t) : java_class_t × java_class_t := swap self that

end java_class_t

/-! ## The invocation interface: runtime instances and thread contexts -/

/-- Modelled from the spec: the status `JNI_OK` of `jni.h`, which is not part of the
sources. -/
def JNI_OK : Int := 0

/-- Modelled from the spec: the interface version `JNI_VERSION_1_6` of `jni.h`
(`0x00010006`), which is not part of the sources. -/
def JNI_VERSION_1_6 : Int := 65542

/-- The calls of the invocation interface, global or made through `JavaVM *`, with their
arguments. -/
inductive VmCall where
  | JNI_GetCreatedJavaVMs (bufLen : Nat)
  | JNI_CreateJavaVM (version : Int) (options : List (List Char)) (nOptions : Nat)
      (ignoreUnrecognized : Bool)
  | GetEnv (vm : Ptr) (version : Int)
  | AttachCurrentThread (vm : Ptr)
  | DetachCurrentThread (vm : Ptr)
  | DestroyJavaVM (vm : Ptr)
deriving DecidableEq, Repr

/-- What a call of the invocation interface gives back: its status, and what it writes
through its out-parameters: `vms` are the created runtimes `JNI_GetCreatedJavaVMs` knows
of (it reports their number and stores as many as the buffer holds), `vm` and `env` are
the runtime and the thread context stored by `JNI_CreateJavaVM`, `GetEnv` and
`AttachCurrentThread`. -/
structure VmAnswer where
  status : Int
  vms : List Ptr
  vm : Ptr
  env : Ptr
deriving DecidableEq, Repr

/-- The process as seen through the invocation interface: `trace` lists the calls made so
far, oldest first, and `answer` gives what a call gives back. -/
structure Invocation where
  answer : List VmCall → VmCall → VmAnswer
  trace : List VmCall

/-- A global call of the invocation interface. -/
def Invocation.call (inv : Invocation) (c : VmCall) : VmAnswer × Invocation :=
  (inv.answer inv.trace c, { inv with trace := inv.trace ++ [c] })

/-- A call `vm->F(...)`: undefined through a null `vm`. -/
def Invocation.call_through (inv : Invocation) (vm : Ptr) (c : VmCall) :
    Option (VmAnswer × Invocation) :=
  if vm = 0 then none else some (inv.call c)

/-- A process in which every call succeeds, storing the runtime 7 and the context 8, and
one runtime, 7, has been created. -/
def running_process : Invocation := ⟨fun _ _ => ⟨JNI_OK, [7], 7, 8⟩, []⟩

/-- A process without any runtime, in which the discovery call succeeds and reports no
runtime, and every other call fails with the status -1. -/
def empty_process : Invocation :=
  ⟨fun _ c =>
    match c with
    | .JNI_GetCreatedJavaVMs _ => ⟨JNI_OK, [], 0, 0⟩
    | _ => ⟨-1, [], 0, 0⟩, []⟩

/-- The members of `java_env_t`. -/
structure java_env_t where
  vm_ : Ptr
  env_ : Ptr
  detach_ : Bool
deriving DecidableEq, Repr

namespace java_env_t

/-- The default constructor `java_env_t() : vm_(nullptr), env_(nullptr), detach_(false)`. -/
def default_ctor : java_env_t := ⟨0, 0, false⟩

/-- The constructor `java_env_t(JavaVM *vm, JNIEnv *env, bool detach)`. -/
def ctor (vm env : Ptr) (detach : Bool) : java_env_t := ⟨vm, env, detach⟩

/-- The member `swap`.  Returns the new `*this` and the new `that`. -/
def swap (self that : java_env_t) : java_env_t × java_env_t :=
  ({ self with vm_ := that.vm_, env_ := that.env_, detach_ := that.detach_ },
   { that with vm_ := self.vm_, env_ := self.env_, detach_ := self.detach_ })

/-- The move constructor `java_env_t(java_env_t &&that) : java_env_t() { swap(that); }`.
Returns the new context and what is left in `that`. -/
def move_ctor (that : java_env_t) : java_env_t × java_env_t := swap default_ctor that

/-- The move assignment `*this = std::move(that)`. -/
def move_assign (self that : java_env_t) : java_env_t × java_env_t := swap self that

/-- The destructor `~java_env_t()`. -/
def destructor (inv : Invocation) (e : java_env_t) : Option Invocation :=
  if e.detach_ then (inv.call_through e.vm_ (.DetachCurrentThread e.vm_)).map Prod.snd
  else some inv

end java_env_t

/-- The members of `java_vm_t`. -/
structure java_vm_t where
  vm_ : Ptr
  destroy_ : Bool
deriving DecidableEq, Repr

namespace java_vm_t

/-- The default constructor `java_vm_t() : vm_(nullptr), destroy_(false) {}`. -/
def default_ctor : java_vm_t := ⟨0, false⟩

/-- The constructor `java_vm_t(JavaVM *vm, bool destroy)`. -/
def ctor (vm : Ptr) (destroy : Bool) : java_vm_t := ⟨vm, destroy⟩

/-- The member `swap`.  Returns the new `*this` and the new `that`. -/
def swap (self that : java_vm_t) : java_vm_t × java_vm_t :=
  ({ self with vm_ := that.vm_, destroy_ := that.destroy_ },
   { that with vm_ := self.vm_, destroy_ := self.destroy_ })

/-- The move constructor `java_vm_t(java_vm_t &&that) : java_vm_t() { swap(that); }`.
Returns the new instance and what is left in `that`. -/
def move_ctor (that : java_vm_t) : java_vm_t × java_vm_t := swap default_ctor that

/-- The move assignment `*this = std::move(that)`. -/
def move_assign (self that : java_vm_t) : java_vm_t × java_vm_t := swap self that

/-- The destructor `~java_vm_t()`. -/
def destructor (inv : Invocation) (v : java_vm_t) : Option Invocation :=
  if v.destroy_ then (inv.call_through v.vm_ (.DestroyJavaVM v.vm_)).map Prod.snd
  else some inv

end java_vm_t

/-! ## Class, field and method resolution -/

/-- A runtime that answers every call with the word `w`. -/
def constant_runtime (w : Ptr) : Runtime := ⟨fun _ _ => w, []⟩

/-- The members of `java_field_base_t`. -/
structure java_field_base_t where
  env_ : Ptr
  class_ : Ptr
  id_ : Ptr
deriving DecidableEq, Repr

/-- The members of `java_method_base_t`. -/
structure java_method_base_t where
  env_ : Ptr
  class_ : Ptr
  id_ : Ptr
deriving DecidableEq, Repr

/-- The class template `java_field_t<N, T>`, which adds no member to its base. -/
structure java_field_t extends java_field_base_t
deriving DecidableEq, Repr

/-- The class template `java_static_field_t<N, T>`, which adds no member to its base. -/
structure java_static_field_t extends java_field_base_t
deriving DecidableEq, Repr

/-- The class template `java_method_t<N, R(A...)>`, which adds no member to its base. -/
structure java_method_t extends java_method_base_t
deriving DecidableEq, Repr

/-- The class template `java_static_method_t<R(A...)>`, which adds no member to its base. -/
structure java_static_method_t extends java_method_base_t
deriving DecidableEq, Repr

/-- The template argument `U` of a member lookup: a type, or a function shape `R(A...)`. -/
inductive Declared where
  | type (T : JType)
  | function (R : JType) (A : List JType)
deriving DecidableEq

/-- The member `java_type_info_t<U>::signature` of a declared type or shape. -/
def Declared.signature : Declared → java_string_literal_t
  | .type T => java_type_info_t.signature T
  | .function R A => java_type_info_t.function_signature R A

namespace java_class_t

/-- The static member `name` that `java_class_t<N, T>` inherits from its base
`java_object_t<"java/lang/Class">`, which is what the unqualified `name` in the
constructor of `java_class_t` refers to. -/
def name : java_string_literal_t := lit "java/lang/Class"

/-- The constructor `java_class_t(JNIEnv *env)` of `java_class_t<N, T>`: the class found,
or the message of the `std::invalid_argument` thrown. -/
def resolve (rt : Runtime) (N : java_string_literal_t) (env : Ptr) :
    Option (Except (List Char) java_class_t × Runtime) :=
  match rt.call env (.FindClass N.c_str) with
  | none => none
  | some (handle, rt1) =>
    if handle = 0 then
      some (.error ("Could not find class with name '".toList ++ name.c_str ++ "'".toList), rt1)
    else some (.ok ⟨java_object_t.ctor env handle⟩, rt1)

/-- The member `get_field<U>(name)`. -/
def get_field (rt : Runtime) (c : java_class_t) (U : Declared) (name : List Char) :
    Option (Except (List Char) java_field_t × Runtime) :=
  let signature := U.signature.c_str
  match rt.call c.env_ (.GetFieldID c.handle_ name signature) with
  | none => none
  | some (id, rt1) =>
    if id = 0 then
      some (.error ("Could not find field '".toList ++ name ++ "' with signature '".toList ++
        signature ++ "'".toList), rt1)
    else some (.ok ⟨⟨c.env_, c.handle_, id⟩⟩, rt1)

/-- The member `get_static_field<U>(name)`. -/
def get_static_field (rt : Runtime) (c : java_class_t) (U : Declared) (name : List Char) :
    Option (Except (List Char) java_static_field_t × Runtime) :=
  let signature := U.signature.c_str
  match rt.call c.env_ (.GetStaticFieldID c.handle_ name signature) with
  | none => none
  | some (id, rt1) =>
    if id = 0 then
      some (.error ("Could not find field '".toList ++ name ++ "' with signature '".toList ++
        signature ++ "'".toList), rt1)
    else some (.ok ⟨⟨c.env_, c.handle_, id⟩⟩, rt1)

/-- The member `get_method<U>(name)`. -/
def get_method (rt : Runtime) (c : java_class_t) (U : Declared) (name : List Char) :
    Option (Except (List Char) java_method_t × Runtime) :=
  let signature := U.signature.c_str
  match rt.call c.env_ (.GetMethodID c.handle_ name signature) with
  | none => none
  | some (id, rt1) =>
    if id = 0 then
      some (.error ("Could not find method '".toList ++ name ++ "' with signature '".toList ++
        signature ++ "'".toList), rt1)
    else some (.ok ⟨⟨c.env_, c.handle_, id⟩⟩, rt1)

/-- The member `get_static_method<U>(name)`. -/
def get_static_method (rt : Runtime) (c : java_class_t) (U : Declared) (name : List Char) :
    Option (Except (List Char) java_static_method_t × Runtime) :=
  let signature := U.signature.c_str
  match rt.call c.env_ (.GetStaticMethodID c.handle_ name signature) with
  | none => none
  | some (id, rt1) =>
    if id = 0 then
      some (.error ("Could not find method '".toList ++ name ++ "' with signature '".toList ++
        signature ++ "'".toList), rt1)
    else some (.ok ⟨⟨c.env_, c.handle_, id⟩⟩, rt1)

end java_class_t

/-! ## Method invocation -/

/-- An argument of a call: a value of a primitive kind, or an object wrapper. -/
inductive Argument where
  | primitive (K : Primitive) (value : Int)
  | object (value : java_object_t)
deriving DecidableEq, Repr

/-- The function template `java_marshall_argument_value`, by the `return` statement that is
reached for each argument type: the marshalled value, stored in the member of `jvalue`
that belongs to its runtime representation. -/
def java_marshall_argument_value : Argument → jvalue
  | .primitive .bool value => .z (java_type_info_t.marshall .bool value)
  | .primitive .unsigned_char value => .b (java_type_info_t.marshall .unsigned_char value)
  | .primitive .char value => .c (java_type_info_t.marshall .char value)
  | .primitive .short value => .s (java_type_info_t.marshall .short value)
  | .primitive .int value => .i (java_type_info_t.marshall .int value)
  | .primitive .long value => .j (java_type_info_t.marshall .long value)
  | .primitive .float value => .f (java_type_info_t.marshall .float value)
  | .primitive .double value => .d (java_type_info_t.marshall .double value)
  | .object value => .l value.handle_

/-- Modelled from the spec: the value of type `j<K>` that a typed invoke of kind `K` returns,
read off the word `w` the runtime answers with; the declarations of `jni.h` are not part
of the sources. -/
def java_result : Primitive → Ptr → Int
  | .bool, w => to_unsigned 8 w
  | .unsigned_char, w => to_signed 8 w
  | .char, w => to_unsigned 16 w
  | .short, w => to_signed 16 w
  | .int, w => to_signed 32 w
  | .long, w => to_signed 64 w
  | .float, w => to_unsigned 32 w
  | .double, w => to_unsigned 64 w

namespace java_method_invoker_t

/-- The conversion of the value returned by `CallStatic<K>MethodA` to the return type the
overload of `call` for a `jclass` receiver is declared with: `K` itself, except that the
overload of `java_method_invoker_t<short(A...)>` is declared to return `char`. -/
def static_return (p : Platform) : Primitive → Int → Int
  | .short, value => java_to_native p .char value
  | K, value => java_to_native p K value

/-- The overload `call(JNIEnv *env, jobject receiver, jmethodID method, A... args)` of
`java_method_invoker_t<K(A...)>`. -/
def call (p : Platform) (K : Primitive) (rt : Runtime) (env receiver method : Ptr)
    (args : List Argument) : Option (Int × Runtime) :=
  let argv := args.map java_marshall_argument_value
  match rt.call env (.CallMethodA K receiver method argv) with
  | none => none
  | some (w, rt1) => some (java_to_native p K (java_result K w), rt1)

/-- The overload `call(JNIEnv *env, jclass receiver, jmethodID method, A... args)` of
`java_method_invoker_t<K(A...)>`. -/
def call_static (p : Platform) (K : Primitive) (rt : Runtime) (env receiver method : Ptr)
    (args : List Argument) : Option (Int × Runtime) :=
  let argv := args.map java_marshall_argument_value
  match rt.call env (.CallStaticMethodA K receiver method argv) with
  | none => none
  | some (w, rt1) => some (static_return p K (java_result K w), rt1)

end java_method_invoker_t

/-- The member `call(receiver, args...)` of `java_method_t<N, K(A...)>`. -/
def java_method_t.call (p : Platform) (K : Primitive) (rt : Runtime) (m : java_method_t)
    (receiver : java_object_t) (args : List Argument) : Option (Int × Runtime) :=
  match java_method_invoker_t.call p K rt m.env_ receiver.handle_ m.id_ args with
  | none => none
  | some (r, rt1) => some (java_to_native p K r, rt1)

/-- The member `call(args...)` of `java_static_method_t<K(A...)>`. -/
def java_static_method_t.call (p : Platform) (K : Primitive) (rt : Runtime)
    (m : java_static_method_t) (args : List Argument) : Option (Int × Runtime) :=
  match java_method_invoker_t.call_static p K rt m.env_ m.class_ m.id_ args with
  | none => none
  | some (r, rt1) => some (java_to_native p K r, rt1)

/-! ## Creation, discovery and attachment -/

namespace java_vm_t

/-- The static member `get_created()`.  The local `vm` is written by
`JNI_GetCreatedJavaVMs(&vm, 1, &len)` only if a runtime exists; `indeterminate` is what
it holds otherwise.  The result is move-constructed from the temporary
`java_vm_t(vm, false)`, which is then destroyed. -/
def get_created (indeterminate : Ptr) (inv : Invocation) :
    Option (Option java_vm_t × Invocation) :=
  let r := inv.call (.JNI_GetCreatedJavaVMs 1)
  let vm := (r.1.vms.take 1).headD indeterminate
  if r.1.status ≠ JNI_OK then some (none, r.2)
  else
    let moved := move_ctor (ctor vm false)
    match destructor r.2 moved.2 with
    | none => none
    | some inv2 => some (some moved.1, inv2)

/-- The loop `for (const auto &option : options) vm_options.push_back(...)` of `create`:
one `JavaVMOption` per string, holding its C string. -/
def vm_options (options : List (List Char)) : List (List Char) :=
  options.foldl (fun acc option => acc ++ [option]) []

/-- The static member `create(std::vector<std::string> options)`: the pair of the instance
and the context, or the message of the `std::invalid_argument` thrown.  The members of
the pair are move-constructed from the temporaries `java_vm_t(vm, true)` and
`java_env_t(vm, env, false)`, which are then destroyed. -/
def create (inv : Invocation) (options : List (List Char)) :
    Option (Except (List Char) (java_vm_t × java_env_t) × Invocation) :=
  let r := inv.call
    (.JNI_CreateJavaVM JNI_VERSION_1_6 (vm_options options) (vm_options options).length true)
  if r.1.status ≠ JNI_OK then some (.error "Could not create VM".toList, r.2)
  else
    let first := move_ctor (ctor r.1.vm true)
    let second := java_env_t.move_ctor (java_env_t.ctor r.1.vm r.1.env false)
    match java_env_t.destructor r.2 second.2 with
    | none => none
    | some inv2 =>
      match destructor inv2 first.2 with
      | none => none
      | some inv3 => some (.ok (first.1, second.1), inv3)

/-- The member `get_env()`.  The result is move-constructed from the temporary
`java_env_t(vm_, env, false)`, which is then destroyed. -/
def get_env (inv : Invocation) (v : java_vm_t) : Option (Option java_env_t × Invocation) :=
  match inv.call_through v.vm_ (.GetEnv v.vm_ JNI_VERSION_1_6) with
  | none => none
  | some (answer, inv1) =>
    if answer.status ≠ JNI_OK then some (none, inv1)
    else
      let moved := java_env_t.move_ctor (java_env_t.ctor v.vm_ answer.env false)
      match java_env_t.destructor inv1 moved.2 with
      | none => none
      | some inv2 => some (some moved.1, inv2)

/-- The member `attach_current_thread()`: the context, or the message of the
`std::invalid_argument` thrown. -/
def attach_current_thread (inv : Invocation) (v : java_vm_t) :
    Option (Except (List Char) java_env_t × Invocation) :=
  match inv.call_through v.vm_ (.AttachCurrentThread v.vm_) with
  | none => none
  | some (answer, inv1) =>
    if answer.status ≠ JNI_OK then
      some (.error "Could not attach current thread".toList, inv1)
    else some (.ok (java_env_t.ctor v.vm_ answer.env true), inv1)

end java_vm_t

/-! ## Sequences of moves, and destruction of all wrappers involved -/

/-- A move among the wrappers of a list: the move assignment `ws[dst] = std::move(ws[src])`,
or the move construction of a new wrapper from `ws[src]`, which joins the list. -/
inductive Move where
  | assign (dst src : Nat)
  | construct (src : Nat)
deriving DecidableEq, Repr

/-- One move, given the move assignment and the move constructor of the wrapper type. -/
def apply_move {α : Type} (move_assign : α → α → α × α) (move_ctor : α → α × α)
    (ws : List α) : Move → List α
  | .assign dst src =>
    match ws[dst]?, ws[src]? with
    | some d, some s => ((ws.set dst (move_assign d s).1).set src (move_assign d s).2)
    | _, _ => ws
  | .construct src =>
    match ws[src]? with
    | some s => ws.set src (move_ctor s).2 ++ [(move_ctor s).1]
    | none => ws

/-- A sequence of moves. -/
def apply_moves {α : Type} (move_assign : α → α → α × α) (move_ctor : α → α × α) :
    List α → List Move → List α
  | ws, [] => ws
  | ws, m :: ms => apply_moves move_assign move_ctor (apply_move move_assign move_ctor ws m) ms

/-- Destruction of every wrapper of a list, in list order. -/
def destroy_each {α σ : Type} (destructor : σ → α → Option σ) : σ → List α → Option σ
  | st, [] => some st
  | st, w :: ws =>
    match destructor st w with
    | none => none
    | some st1 => destroy_each destructor st1 ws

namespace java_env_t

/-- Moves among thread contexts. -/
def moves (ws : List java_env_t) (ms : List Move) : List java_env_t :=
  apply_moves move_assign move_ctor ws ms

/-- Destruction of every thread context of a list. -/
def destroy_all (inv : Invocation) (ws : List java_env_t) : Option Invocation :=
  destroy_each destructor inv ws

/-- One `DetachCurrentThread` call for each owned context of the list. -/
def detaches (ws : List java_env_t) : List VmCall :=
  (ws.filter fun w => w.detach_).map fun w => VmCall.DetachCurrentThread w.vm_

end java_env_t

namespace java_vm_t

/-- Moves among runtime instances. -/
def moves (ws : List java_vm_t) (ms : List Move) : List java_vm_t :=
  apply_moves move_assign move_ctor ws ms

/-- Destruction of every runtime instance of a list. -/
def destroy_all (inv : Invocation) (ws : List java_vm_t) : Option Invocation :=
  destroy_each destructor inv ws

/-- One `DestroyJavaVM` call for each owned instance of the list. -/
def destroys (ws : List java_vm_t) : List VmCall :=
  (ws.filter fun w => w.destroy_).map fun w => VmCall.DestroyJavaVM w.vm_

end java_vm_t

/-! ## Direct buffer views -/

/-- A runtime for a handle that is not a direct buffer: the address query answers null and
the capacity query answers the word of the `jlong` -1. -/
def not_a_direct_buffer : Runtime :=
  ⟨fun _ c =>
    match c with
    | .GetDirectBufferCapacity _ => 2 ^ 64 - 1
    | _ => 0, []⟩

/-- A runtime for a direct buffer of 16 bytes at the address 4096. -/
def direct_buffer_16 : Runtime :=
  ⟨fun _ c =>
    match c with
    | .GetDirectBufferAddress _ => 4096
    | .GetDirectBufferCapacity _ => 16
    | _ => 0, []⟩

/-- A runtime for a direct buffer of 16 bytes whose address is 8 below the top of a 64-bit
address space. -/
def direct_buffer_at_top : Runtime :=
  ⟨fun _ c =>
    match c with
    | .GetDirectBufferAddress _ => 2 ^ 64 - 8
    | .GetDirectBufferCapacity _ => 16
    | _ => 0, []⟩

namespace java_byte_buffer_t

/-- The constructor `java_byte_buffer_t(JNIEnv *env, jobject handle)`: the base, then
`data_` from `GetDirectBufferAddress`, then `size_` from `GetDirectBufferCapacity`, whose
`jlong` is converted to `size_t`, an unsigned integer of `size_bits` bits. -/
def ctor (size_bits : Nat) (rt : Runtime) (env handle : Ptr) :
    Option (java_byte_buffer_t × Runtime) :=
  match rt.call env (.GetDirectBufferAddress handle) with
  | none => none
  | some (address, rt1) =>
    match rt1.call env (.GetDirectBufferCapacity handle) with
    | none => none
    | some (w, rt2) =>
      some (⟨java_object_t.ctor env handle, address,
        (to_unsigned size_bits (java_result .long w)).toNat⟩, rt2)

/-- The constructor `java_byte_buffer_t(JNIEnv *env, uint8_t *data, size_t len)`, which
delegates to the one above with the handle `NewDirectByteBuffer` returns. -/
def ctor_data (size_bits : Nat) (rt : Runtime) (env data : Ptr) (len : Nat) :
    Option (java_byte_buffer_t × Runtime) :=
  match rt.call env (.NewDirectByteBuffer data (java_type_info_t.marshall .long len)) with
  | none => none
  | some (handle, rt1) => ctor size_bits rt1 env handle

/-- The member `data()`, which reads `data_` and nothing else. -/
def data (b : java_byte_buffer_t) : Ptr := b.data_

/-- The member `size()`, which reads `size_` and nothing else. -/
def size (b : java_byte_buffer_t) : Nat := b.size_

/-- The member `empty()`: `size_ == 0`. -/
def empty (b : java_byte_buffer_t) : Bool := b.size_ == 0

/-- The member `begin()`, which reads `data_` and nothing else. -/
def begin (b : java_byte_buffer_t) : Ptr := b.data_

/-- The member `end()`: `data_ + size_`, pointer arithmetic on `uint8_t *`, which the
machine carries out in addresses of `size_bits` bits, the width of `size_t`. -/
def end_ (size_bits : Nat) (b : java_byte_buffer_t) : Ptr :=
  (b.data_ + b.size_) % 2 ^ size_bits

end java_byte_buffer_t

/-! ## Instantiation of the argument packing -/

/-- The runtime representation `java_type_info_t<T>::type` of an argument type. -/
inductive java_type where
  | jboolean
  | jbyte
  | jchar
  | jshort
  | jint
  | jlong
  | jfloat
  | jdouble
  | jobject
deriving DecidableEq, Repr

/-- The members of the union `jvalue`. -/
inductive jvalue_member where
  | z
  | b
  | c
  | s
  | i
  | j
  | f
  | d
  | l
deriving DecidableEq, Repr

/-- The type of each member of `jvalue`. -/
def jvalue_member.type : jvalue_member → java_type
  | .z => .jboolean
  | .b => .jbyte
  | .c => .jchar
  | .s => .jshort
  | .i => .jint
  | .j => .jlong
  | .f => .jfloat
  | .d => .jdouble
  | .l => .jobject

/-- The member `java_type_info_t<T>::type` for the type of an argument. -/
def Argument.type : Argument → java_type
  | .primitive .bool _ => .jboolean
  | .primitive .unsigned_char _ => .jbyte
  | .primitive .char _ => .jchar
  | .primitive .short _ => .jshort
  | .primitive .int _ => .jint
  | .primitive .long _ => .jlong
  | .primitive .float _ => .jfloat
  | .primitive .double _ => .jdouble
  | .object _ => .jobject

/-- The `return` statements of `java_marshall_argument_value<T>` that are instantiated, in
source order, each given by the member of `jvalue` it initialises from `result`.  Of the
eight `if constexpr` statements, the one whose condition holds keeps its `return` and
the others are discarded; the last statement `return jvalue{.l = result};` stands after
them, in no `else`, and is instantiated for every `T`. -/
def instantiated_returns (type : java_type) : List jvalue_member :=
  (if type = .jboolean then [.z] else []) ++
  (if type = .jbyte then [.b] else []) ++
  (if type = .jchar then [.c] else []) ++
  (if type = .jshort then [.s] else []) ++
  (if type = .jint then [.i] else []) ++
  (if type = .jlong then [.j] else []) ++
  (if type = .jfloat then [.f] else []) ++
  (if type = .jdouble then [.d] else []) ++
  [.l]

/-- Whether `jvalue{.m = result}` is well-formed for a `result` of the given type, among
the combinations that occur: a member is initialised from a value of its own type, and
the pointer member `l` from no arithmetic value. -/
def initialises (type : java_type) (m : jvalue_member) : Bool := m.type = type

/-- Whether the instantiation of `java_marshall_argument_value<T>` for the type of an
argument is well-formed: every instantiated `return` statement is. -/
def java_marshall_argument_value_well_formed (a : Argument) : Bool :=
  (instantiated_returns a.type).all (initialises a.type)

/-- The function template `java_marshall_argument_value` as instantiated for an argument:
no value where the instantiation is ill-formed, otherwise the value of the `return`
statement reached. -/
def java_marshall_argument_value_instantiated (a : Argument) : Option jvalue :=
  if java_marshall_argument_value_well_formed a then some (java_marshall_argument_value a)
  else none

/-- The array `jvalue argv[] = { java_marshall_argument_value(env, args)... }` of the
invokers, as instantiated: no array where the instantiation for one of the arguments is
ill-formed. -/
def argv_instantiated : List Argument → Option (List jvalue)
  | [] => some []
  | a :: as =>
    match java_marshall_argument_value_instantiated a, argv_instantiated as with
    | some v, some vs => some (v :: vs)
    | _, _ => none

/-! ## Call operators of the method handles -/

/-- The call operator of `java_method_t<N, K(A...)>`: `return call(receiver, args...);`. -/
def java_method_t.operator_call (p : Platform) (K : Primitive) (rt : Runtime)
    (m : java_method_t) (receiver : java_object_t) (args : List Argument) :
    Option (Int × Runtime) :=
  java_method_t.call p K rt m receiver args

/-- The call operator of `java_static_method_t<K(A...)>`: the statement `call(args...);`,
with no `return`.  The call is made and its value dropped, and control flows off the end
of a function that returns `K`; `indeterminate` is what the caller finds as the result. -/
def java_static_method_t.operator_call (indeterminate : Int) (p : Platform) (K : Primitive)
    (rt : Runtime) (m : java_static_method_t) (args : List Argument) :
    Option (Int × Runtime) :=
  match java_static_method_t.call p K rt m args with
  | none => none
  | some (_, rt1) => some (indeterminate, rt1)

/-! ## Properties of the signature engine -/

namespace java_string_literal_t

theorem getElem?_copy_loop (src : List Char) (off k : Nat) (result : List Char) (j : Nat)
    (hk : k ≤ src.length) :
    (copy_loop src off k result)[j]? =
      if off ≤ j ∧ j < off + k ∧ j < result.length then src[j - off]? else result[j]? := by
  induction k with
  | zero =>
    have : ¬ (off ≤ j ∧ j < off + 0 ∧ j < result.length) := by omega
    rw [if_neg this]
    rfl
  | succ k ih =>
    have ih1 := ih (by omega)
    simp only [copy_loop, List.getElem?_set, length_copy_loop, ih1]
    by_cases hj : off + k = j
    · subst hj
      by_cases hl : off + k < result.length
      · have hsrc : k < src.length := by omega
        have hc : off ≤ off + k ∧ off + k < off + (k + 1) ∧ off + k < result.length := by omega
        rw [if_pos rfl, if_pos hl, if_pos hc, List.getD_eq_getElem?_getD]
        have : off + k - off = k := by omega
        rw [this, List.getElem?_eq_getElem hsrc]
        rfl
      · have hn : result[off + k]? = none := by
          apply List.getElem?_eq_none
          omega
        have hc : ¬ (off ≤ off + k ∧ off + k < off + (k + 1) ∧ off + k < result.length) := by
          omega
        rw [if_pos rfl, if_neg hl, if_neg hc, hn]
    · rw [if_neg hj]
      by_cases hc : off ≤ j ∧ j < off + k ∧ j < result.length
      · have hc2 : off ≤ j ∧ j < off + (k + 1) ∧ j < result.length := by omega
        rw [if_pos hc, if_pos hc2]
      · have hc2 : ¬ (off ≤ j ∧ j < off + (k + 1) ∧ j < result.length) := by omega
        rw [if_neg hc, if_neg hc2]

/-- The effect of a copy loop that stays inside both arrays. -/
theorem copy_loop_eq (src : List Char) (off k : Nat) (result : List Char)
    (hk : k ≤ src.length) (hr : off + k ≤ result.length) :
    copy_loop src off k result = result.take off ++ src.take k ++ result.drop (off + k) := by
  apply List.ext_getElem?
  intro j
  rw [getElem?_copy_loop _ _ _ _ _ hk]
  by_cases h1 : j < off
  · have hc : ¬ (off ≤ j ∧ j < off + k ∧ j < result.length) := by omega
    rw [if_neg hc, List.append_assoc, List.getElem?_append_left (by simp; omega),
      List.getElem?_take, if_pos h1]
  · by_cases h2 : j < off + k
    · have hc : off ≤ j ∧ j < off + k ∧ j < result.length := by omega
      rw [if_pos hc, List.getElem?_append_left (by simp; omega),
        List.getElem?_append_right (by simp; omega), List.getElem?_take]
      have e : (List.take off result).length = off := by simp; omega
      rw [e, if_pos (by omega)]
    · have hc : ¬ (off ≤ j ∧ j < off + k ∧ j < result.length) := by omega
      rw [if_neg hc, List.getElem?_append_right (by simp; omega), List.getElem?_drop]
      have e : (List.take off result ++ List.take k src).length = off + k := by simp; omega
      rw [e]
      congr 1
      omega

/-- What `operator+` computes: the characters of `a`, then those of `b`, then the
terminator. -/
theorem data_add (a b : java_string_literal_t) :
    (a + b).data_ = a.chars ++ b.chars ++ [NUL] := by
  show add_result a b = _
  have ha := N_pos a
  have hb := N_pos b
  unfold add_result chars size_
  unfold N at *
  generalize a.data_ = A at *
  generalize b.data_ = B at *
  obtain ⟨n, hn⟩ : ∃ n, A.length = n + 1 := ⟨A.length - 1, by omega⟩
  obtain ⟨m, hm⟩ : ∃ m, B.length = m + 1 := ⟨B.length - 1, by omega⟩
  have hAl : (List.take n A).length = n := by simp; omega
  have hBl : (List.take m B).length = m := by simp; omega
  have s1 : copy_loop A 0 n (List.replicate (n + m + 1) NUL) =
      List.take n A ++ List.replicate (m + 1) NUL := by
    rw [copy_loop_eq A 0 n _ (by omega) (by simp; omega)]
    have : n + m + 1 - n = m + 1 := by omega
    simp [this]
  have s2 : copy_loop B n m (List.take n A ++ List.replicate (m + 1) NUL) =
      List.take n A ++ List.take m B ++ [NUL] := by
    rw [copy_loop_eq B n m _ (by omega) (by simp; omega)]
    have t1 : List.take n (List.take n A ++ List.replicate (m + 1) NUL) = List.take n A := by
      rw [List.take_append_eq_append_take, hAl]
      simp
    have t2 : List.drop (n + m) (List.take n A ++ List.replicate (m + 1) NUL) = [NUL] := by
      rw [List.drop_append_eq_append_drop, hAl]
      have : n + m - n = m := by omega
      simp [this]
    rw [t1, t2]
  have s3 : (List.take n A ++ List.take m B ++ [NUL]).set (n + m) NUL =
      List.take n A ++ List.take m B ++ [NUL] := by
    rw [List.set_append]
    have : ¬ n + m < (List.take n A ++ List.take m B).length := by
      rw [List.length_append, hAl, hBl]
      omega
    rw [if_neg this]
    have : n + m - (List.take n A ++ List.take m B).length = 0 := by
      rw [List.length_append, hAl, hBl]
      omega
    rw [this]
    rfl
  have e1 : n + 1 + (m + 1) - 1 = n + m + 1 := by omega
  have e2 : n + 1 + (m + 1) - 2 = n + m := by omega
  simp only [hn, hm, e1, e2, Nat.add_sub_cancel, s1, s2, s3]

theorem chars_add (a b : java_string_literal_t) : (a + b).chars = a.chars ++ b.chars := by
  have h := data_add a b
  have e : (a + b).chars = List.take ((a + b).data_.length - 1) (a + b).data_ := rfl
  rw [e, h]
  have : (a.chars ++ b.chars ++ [NUL]).length - 1 = (a.chars ++ b.chars).length := by simp
  rw [this, List.take_left]

theorem size_add (a b : java_string_literal_t) : (a + b).size_ = a.size_ + b.size_ := by
  have h := data_add a b
  unfold size_ N
  rw [h]
  have ha := N_pos a
  have hb := N_pos b
  simp [chars, size_, N]

theorem data_eq_chars_of_add (a b : java_string_literal_t) :
    (a + b).data_ = (a + b).chars ++ [NUL] := by
  rw [chars_add, data_add]

theorem chars_lit (s : String) : (lit s).chars = s.toList := by
  simp [chars, size_, N, lit]

theorem data_lit (s : String) : (lit s).data_ = s.toList ++ [NUL] := rfl

theorem eq_of_data_eq {a b : java_string_literal_t} (h : a.data_ = b.data_) : a = b := by
  cases a
  cases b
  cases h
  rfl

end java_string_literal_t

namespace java_type_info_t

theorem chars_fold_signature (A0 : JType) (As : List JType) :
    (fold_signature A0 As).chars = argument_chars (A0 :: As) := by
  induction As generalizing A0 with
  | nil => simp [fold_signature, argument_chars]
  | cons A1 As ih =>
    rw [fold_signature, chars_add, ih]
    rfl

theorem chars_function_signature (R : JType) (A : List JType) :
    (function_signature R A).chars = '(' :: argument_chars A ++ ')' :: (signature R).chars := by
  cases A with
  | nil =>
    rw [function_signature, chars_add, chars_lit]
    rfl
  | cons A0 As =>
    rw [function_signature, chars_add, chars_add, chars_add, chars_fold_signature, chars_lit,
      chars_lit]
    simp

end java_type_info_t

/-- C1: the signature of a function shape `R(A0, ..., Ak-1)` is `(`, then the signatures
of the arguments in declaration order, then `)`, then the signature of `R`, stored with
its terminator; for an empty argument list it is `()` followed by the signature of `R`. -/
theorem function_signature_composition (R : JType) (A : List JType) :
    (function_signature R A).chars = '(' :: argument_chars A ++ ')' :: (signature R).chars ∧
    (function_signature R A).data_ =
      '(' :: argument_chars A ++ ')' :: (signature R).chars ++ [NUL] ∧
    (function_signature R []).chars = '(' :: ')' :: (signature R).chars := by
  have h1 := chars_function_signature R A
  refine ⟨h1, ?_, chars_function_signature R []⟩
  rw [← h1]
  cases A with
  | nil => exact data_eq_chars_of_add _ _
  | cons A0 As => exact data_eq_chars_of_add _ _

/-- C2: the signature derived for each primitive kind and for void.  Eight of the nine are
the JNI type descriptors (`Z B C S I F D V`); the one derived for `long` is `L`, which is
not the descriptor `J` of a 64-bit integer. -/
theorem primitive_signatures :
    (signature .bool).data_ = ['Z', NUL] ∧
    (signature .unsigned_char).data_ = ['B', NUL] ∧
    (signature .char).data_ = ['C', NUL] ∧
    (signature .short).data_ = ['S', NUL] ∧
    (signature .int).data_ = ['I', NUL] ∧
    (signature .float).data_ = ['F', NUL] ∧
    (signature .double).data_ = ['D', NUL] ∧
    (signature .void).data_ = ['V', NUL] ∧
    (signature .long).data_ = ['L', NUL] ∧
    (signature .long).c_str ≠ ['J'] := by
  decide

/-- C3: two argument lists of different length, `(long, java_object_t<"x">)` and
`(java_object_t<"Lx">)`, whose class names are non-empty and free of `;`, derive the same
function-shape signature `(LLx;)V`. -/
theorem function_signature_collision :
    (lit "x").chars ≠ [] ∧ ';' ∉ (lit "x").chars ∧
    (lit "Lx").chars ≠ [] ∧ ';' ∉ (lit "Lx").chars ∧
    function_signature .void [.long, .java_object_t (lit "x")] =
      function_signature .void [.java_object_t (lit "Lx")] ∧
    (function_signature .void [.long, .java_object_t (lit "x")]).c_str =
      ['(', 'L', 'L', 'x', ';', ')', 'V'] ∧
    [JType.long, .java_object_t (lit "x")].length ≠ [JType.java_object_t (lit "Lx")].length := by
  decide

/-- C4: the signature of `java_object_t<N>` is `L`, the characters of `N`, `;`, stored
with its terminator, so its length is that of `N` plus two; the signature of
`std::string` is the one of `java_object_t<"java/lang/String">`. -/
theorem object_signature (N : java_string_literal_t) :
    (signature (.java_object_t N)).chars = 'L' :: N.chars ++ [';'] ∧
    (signature (.java_object_t N)).data_ = 'L' :: N.chars ++ [';'] ++ [NUL] ∧
    (signature (.java_object_t N)).size_ = N.size_ + 2 ∧
    signature .string = signature (.java_object_t (lit "java/lang/String")) := by
  have h1 : (signature (.java_object_t N)).chars = 'L' :: N.chars ++ [';'] := by
    rw [signature, chars_add, chars_add, chars_lit, chars_lit]
    rfl
  refine ⟨h1, ?_, ?_, ?_⟩
  · rw [← h1]
    exact data_eq_chars_of_add _ _
  · rw [signature, size_add, size_add]
    have e1 : (lit "L").size_ = 1 := by decide
    have e2 : (lit ";").size_ = 1 := by decide
    omega
  · apply eq_of_data_eq
    rw [signature, signature, data_add, chars_add, chars_lit, chars_lit, chars_lit]
    rfl

/-- C5: the signature of an array of `T` is `[` followed by the signature of `T`, for
`std::vector<T>` as for `std::array<T, N>` whatever `N` is, and `k` nested array levels
put `k` characters `[` in front of the element signature. -/
theorem array_signature (T : JType) :
    (signature (.vector T)).chars = '[' :: (signature T).chars ∧
    (signature (.vector T)).data_ = '[' :: (signature T).chars ++ [NUL] ∧
    (∀ N : Nat, signature (.array T N) = signature (.vector T)) ∧
    (∀ levels : List (Option Nat), (signature (nest levels T)).chars =
      List.replicate levels.length '[' ++ (signature T).chars) := by
  have hv : ∀ U : JType, (signature (.vector U)).chars = '[' :: (signature U).chars := by
    intro U
    rw [signature, chars_add, chars_lit]
    rfl
  refine ⟨hv T, ?_, fun _ => rfl, ?_⟩
  · rw [← hv T]
    exact data_eq_chars_of_add _ _
  · intro levels
    induction levels with
    | nil => rfl
    | cons l ls ih =>
      cases l with
      | none =>
        rw [nest, hv, ih]
        rfl
      | some N =>
        have e : signature (.array (nest ls T) N) = signature (.vector (nest ls T)) := rfl
        rw [nest, e, hv, ih]
        rfl

/-! ## Unique readability of signatures -/

namespace java_type_info_t

/-- A list is split in only one way at the first occurrence of a character. -/
theorem split_unique (c : Char) :
    ∀ (l1 l2 r1 r2 : List Char), c ∉ l1 → c ∉ l2 → l1 ++ c :: r1 = l2 ++ c :: r2 →
      l1 = l2 ∧ r1 = r2 := by
  intro l1
  induction l1 with
  | nil =>
    intro l2 r1 r2 _ h2 h
    cases l2 with
    | nil => simpa using h
    | cons x xs =>
      simp at h
      simp at h2
      exact absurd h.1 h2.1
  | cons y ys ih =>
    intro l2 r1 r2 h1 h2 h
    cases l2 with
    | nil =>
      simp at h
      simp at h1
      exact absurd h.1.symm h1.1
    | cons x xs =>
      simp at h h1 h2
      obtain ⟨e1, e2⟩ := ih xs r1 r2 h1.2 h2.2 h.2
      exact ⟨by rw [h.1, e1], e2⟩

theorem chars_unambiguous (T : JType) (h : unambiguous T) :
    (∃ N, T = .java_object_t N ∧ ';' ∉ N.chars ∧
      (signature T).chars = 'L' :: N.chars ++ [';']) ∨
    ((signature T).chars = [code T] ∧ code T ≠ 'L' ∧ code T ≠ ')' ∧ ∀ N, T ≠ .java_object_t N) := by
  cases T <;> simp only [unambiguous] at h
  case java_object_t N =>
    left
    refine ⟨N, rfl, h, ?_⟩
    rw [signature, chars_add, chars_add, chars_lit, chars_lit]
    rfl
  all_goals
    right
    refine ⟨by decide, by decide, by decide, ?_⟩
    intro N hN
    cases hN

theorem code_injective (T U : JType) (hT : unambiguous T) (hU : unambiguous U)
    (hTo : ∀ N, T ≠ .java_object_t N) (hUo : ∀ N, U ≠ .java_object_t N)
    (h : code T = code U) : T = U := by
  cases T <;> simp only [unambiguous] at hT <;> cases U <;> simp only [unambiguous] at hU <;>
    first
    | rfl
    | exact absurd rfl (hTo _)
    | exact absurd rfl (hUo _)
    | exact absurd h (by decide)

theorem arguments_unique (r : List Char) :
    ∀ A B : List JType, (∀ T ∈ A, unambiguous T) → (∀ T ∈ B, unambiguous T) →
      argument_chars A ++ ')' :: r = argument_chars B ++ ')' :: r →
      List.Forall₂ same_representation A B := by
  intro A
  induction A with
  | nil =>
    intro B _ hB h
    cases B with
    | nil => exact List.Forall₂.nil
    | cons U Bs =>
      exfalso
      have hU := hB U (by simp)
      simp only [argument_chars, List.foldr_cons, List.foldr_nil, List.nil_append] at h
      rcases chars_unambiguous U hU with ⟨N, _, _, hc⟩ | ⟨hc, _, h2, _⟩
      · rw [hc] at h
        simp at h
      · rw [hc] at h
        simp at h
        exact h2 h.1.symm
  | cons T As ih =>
    intro B hA hB h
    have hT := hA T (by simp)
    have hAs : ∀ V ∈ As, unambiguous V := fun V hV => hA V (by simp [hV])
    cases B with
    | nil =>
      exfalso
      simp only [argument_chars, List.foldr_cons, List.foldr_nil, List.nil_append] at h
      rcases chars_unambiguous T hT with ⟨N, _, _, hc⟩ | ⟨hc, _, h2, _⟩
      · rw [hc] at h
        simp at h
      · rw [hc] at h
        simp at h
        exact h2 h.1
    | cons U Bs =>
      have hU := hB U (by simp)
      have hBs : ∀ V ∈ Bs, unambiguous V := fun V hV => hB V (by simp [hV])
      have e : ∀ (V : JType) (Vs : List JType),
          argument_chars (V :: Vs) = (signature V).chars ++ argument_chars Vs := fun _ _ => rfl
      rw [e, e] at h
      rcases chars_unambiguous T hT with ⟨N, hTN, hN, hc⟩ | ⟨hc, h1, _, hTo⟩ <;>
        rcases chars_unambiguous U hU with ⟨M, hUM, hM, hd⟩ | ⟨hd, k1, _, hUo⟩
      · rw [hc, hd] at h
        simp only [List.cons_append, List.append_assoc, List.cons.injEq, true_and,
          List.nil_append] at h
        obtain ⟨e1, e2⟩ := split_unique ';' _ _ _ _ hN hM h
        refine List.Forall₂.cons ?_ (ih Bs hAs hBs e2)
        rw [hTN, hUM]
        exact e1
      · rw [hc, hd] at h
        simp at h
        exact absurd h.1.symm k1
      · rw [hc, hd] at h
        simp at h
        exact absurd h.1 h1
      · rw [hc, hd] at h
        simp at h
        have hTU := code_injective T U hT hU hTo hUo h.1
        refine List.Forall₂.cons ?_ (ih Bs hAs hBs (by rw [h.2]))
        rw [hTU]
        cases U <;> rfl

end java_type_info_t

/-- Without `long` among the argument types the signature of a function shape can be read
back: two argument lists drawn from the seven other primitive kinds and from object types
whose class name has no `;`, with equal signatures for the same return type, have the
same length and agree position by position in kind or class name. -/
theorem function_signature_injective_without_long (R : JType) (A B : List JType)
    (hA : ∀ T ∈ A, unambiguous T) (hB : ∀ T ∈ B, unambiguous T)
    (h : function_signature R A = function_signature R B) :
    List.Forall₂ same_representation A B := by
  have hc : (function_signature R A).chars = (function_signature R B).chars := by rw [h]
  rw [chars_function_signature, chars_function_signature] at hc
  simp only [List.cons_append, List.cons.injEq, true_and] at hc
  exact arguments_unique _ A B hA hB hc

/-- C6: for each of the eight primitive kinds and every value `x` of the native type,
marshalling `x` gives a value of the runtime representation of that kind, and converting
that value back to the native type gives `x` again. -/
theorem marshall_round_trip (p : Platform) (hp : p.long_bits = 32 ∨ p.long_bits = 64)
    (T : Primitive) (x : Int) (hx : native_value p T x) :
    java_value T (java_type_info_t.marshall T x) ∧
    java_to_native p T (java_type_info_t.marshall T x) = x := by
  cases T <;>
    simp only [native_value, java_value, java_type_info_t.marshall, java_to_native, to_unsigned,
      to_signed] at hx ⊢
  · rcases hx with h | h <;> subst h <;> decide
  · norm_num at hx ⊢
    omega
  · cases hc : p.char_signed <;> simp only [hc] at hx ⊢ <;> norm_num at hx ⊢ <;> omega
  · norm_num at hx ⊢
    omega
  · norm_num at hx ⊢
    omega
  · rcases hp with h | h <;> simp only [h] at hx ⊢ <;> norm_num at hx ⊢ <;> omega
  · exact ⟨hx, trivial⟩
  · exact ⟨hx, trivial⟩

/-- C6, at a value: the byte 200 marshals to the `jbyte` -56 and comes back as 200. -/
theorem marshall_round_trip_witness :
    native_value ⟨true, 64⟩ .unsigned_char 200 ∧
    java_type_info_t.marshall .unsigned_char 200 = -56 ∧
    (java_value .unsigned_char (java_type_info_t.marshall .unsigned_char 200) ∧
      java_to_native ⟨true, 64⟩ .unsigned_char (java_type_info_t.marshall .unsigned_char 200) =
        200) :=
  ⟨by decide, by decide,
    marshall_round_trip ⟨true, 64⟩ (Or.inr rfl) .unsigned_char 200 (by decide)⟩

/-! ## Runtime calls and string views -/

theorem Runtime.call_eq (rt : Runtime) (env : Ptr) (c : JniCall) (henv : env ≠ 0) :
    rt.call env c = some (rt.answer rt.trace c, { rt with trace := rt.trace ++ [c] }) := by
  simp [Runtime.call, henv]

namespace java_string_t

/-- A read of a view that has a cached buffer returns it without any runtime call. -/
theorem read_cached (r : StringRead) (rt : Runtime) (s : java_string_t) (h : s.utf8_ ≠ 0) :
    read r rt s = some (s.utf8_, rt, s) := by
  cases r <;> simp [read, c_str, operator_std_string, operator_const_char_ptr, h]

/-- A non-failing read of a bound view that has no cached buffer decodes once and caches
what the decode returned. -/
theorem read_fresh (r : StringRead) (rt : Runtime) (s : java_string_t) (henv : s.env_ ≠ 0)
    (h : s.utf8_ = 0)
    (hr : r = .std_string → rt.answer rt.trace (.GetStringUTFChars s.handle_) ≠ 0) :
    read r rt s = some (rt.answer rt.trace (.GetStringUTFChars s.handle_),
      { rt with trace := rt.trace ++ [.GetStringUTFChars s.handle_] },
      { s with utf8_ := rt.answer rt.trace (.GetStringUTFChars s.handle_) }) := by
  cases r
  · simp [read, operator_const_char_ptr, h, Runtime.call_eq _ _ _ henv]
  · simp [read, c_str, operator_const_char_ptr, h, Runtime.call_eq _ _ _ henv]
  · have := hr rfl
    simp [read, operator_std_string, operator_const_char_ptr, h, Runtime.call_eq _ _ _ henv, this]

theorem reads_cached (rs : List StringRead) (rt : Runtime) (s : java_string_t)
    (h : s.utf8_ ≠ 0) :
    reads rs rt s = some (List.replicate rs.length s.utf8_, rt, s) := by
  induction rs with
  | nil => rfl
  | cons r rs ih => simp [reads, read_cached r rt s h, ih, List.replicate_succ]

/-- What one successful read of a bound view does. -/
theorem read_cases (r : StringRead) (rt rt1 : Runtime) (s s1 : java_string_t) (p : Ptr)
    (henv : s.env_ ≠ 0) (h : read r rt s = some (p, rt1, s1)) :
    (s.utf8_ ≠ 0 ∧ p = s.utf8_ ∧ rt1 = rt ∧ s1 = s) ∨
    (s.utf8_ = 0 ∧ p = rt.answer rt.trace (.GetStringUTFChars s.handle_) ∧
      rt1 = { rt with trace := rt.trace ++ [.GetStringUTFChars s.handle_] } ∧
      s1 = { s with utf8_ := p }) := by
  by_cases hu : s.utf8_ = 0
  · right
    refine ⟨hu, ?_⟩
    cases r
    · simp [read, operator_const_char_ptr, hu, Runtime.call_eq _ _ _ henv] at h
      obtain ⟨h1, h2, h3⟩ := h
      subst h1
      exact ⟨rfl, h2.symm, h3.symm⟩
    · simp [read, c_str, operator_const_char_ptr, hu, Runtime.call_eq _ _ _ henv] at h
      obtain ⟨h1, h2, h3⟩ := h
      subst h1
      exact ⟨rfl, h2.symm, h3.symm⟩
    · simp [read, operator_std_string, operator_const_char_ptr, hu,
        Runtime.call_eq _ _ _ henv] at h
      obtain ⟨_, h1, h2, h3⟩ := h
      subst h1
      exact ⟨rfl, h2.symm, h3.symm⟩
  · left
    rw [read_cached r rt s hu] at h
    simp at h
    obtain ⟨h1, h2, h3⟩ := h
    exact ⟨hu, h1.symm, h2.symm, h3.symm⟩

/-- Reads through `const char *` or `c_str()` of a bound view always return. -/
theorem reads_defined (rs : List StringRead) :
    ∀ (rt : Runtime) (s : java_string_t), s.env_ ≠ 0 → (∀ r ∈ rs, r ≠ .std_string) →
      ∃ result, reads rs rt s = some result := by
  induction rs with
  | nil => intro rt s _ _; exact ⟨_, rfl⟩
  | cons r rs ih =>
    intro rt s henv hrs
    have hr : r ≠ .std_string := hrs r (by simp)
    have hrest : ∀ q ∈ rs, q ≠ .std_string := fun q hq => hrs q (by simp [hq])
    by_cases hu : s.utf8_ = 0
    · have h1 := read_fresh r rt s henv hu (fun h => absurd h hr)
      obtain ⟨res, hres⟩ := ih { rt with trace := rt.trace ++ [.GetStringUTFChars s.handle_] }
        { s with utf8_ := rt.answer rt.trace (.GetStringUTFChars s.handle_) } henv hrest
      rw [reads, h1]
      simp only [hres]
      exact ⟨_, rfl⟩
    · rw [reads_cached (r :: rs) rt s hu]
      exact ⟨_, rfl⟩

/-- What a run of successful reads of a bound view leaves behind. -/
theorem reads_spec (rs : List StringRead) :
    ∀ (rt rt1 : Runtime) (s s1 : java_string_t) (ps : List Ptr), s.env_ ≠ 0 →
      reads rs rt s = some (ps, rt1, s1) →
      s1.env_ = s.env_ ∧ s1.handle_ = s.handle_ ∧ rt1.answer = rt.answer ∧
      (∃ k, rt1.trace = rt.trace ++ List.replicate k (.GetStringUTFChars s.handle_)) ∧
      (∀ p ∈ ps, p = 0 ∨ p = s1.utf8_) ∧
      ((∀ p ∈ ps, p = 0) → s.utf8_ = 0 → s1.utf8_ = 0) ∧
      (s1.utf8_ = s.utf8_ ∨ ∃ t, s1.utf8_ = rt.answer t (.GetStringUTFChars s.handle_)) := by
  induction rs with
  | nil =>
    intro rt rt1 s s1 ps _ h
    simp [reads] at h
    obtain ⟨h1, h2, h3⟩ := h
    subst h1 h2 h3
    exact ⟨rfl, rfl, rfl, ⟨0, by simp⟩, by simp, fun _ h => h, Or.inl rfl⟩
  | cons r rs ih =>
    intro rt rt1 s s1 ps henv h
    rw [reads] at h
    cases hr : read r rt s with
    | none => simp [hr] at h
    | some v =>
      obtain ⟨p, rta, sa⟩ := v
      simp only [hr] at h
      cases hrs : reads rs rta sa with
      | none => simp [hrs] at h
      | some w =>
        obtain ⟨qs, rtb, sb⟩ := w
        simp only [hrs] at h
        simp at h
        obtain ⟨h1, h2, h3⟩ := h
        subst h1 h2 h3
        rcases read_cases r rt rta s sa p henv hr with ⟨hu, hp, hrt, hs⟩ | ⟨hu, hp, hrt, hs⟩
        · rw [hrt, hs, reads_cached rs rt s hu] at hrs
          simp at hrs
          obtain ⟨e1, e2, e3⟩ := hrs
          subst e1 e2 e3
          refine ⟨rfl, rfl, rfl, ⟨0, by simp⟩, ?_, fun _ h0 => h0, Or.inl rfl⟩
          intro q hq
          right
          simp at hq
          rcases hq with hq | hq
          · rw [hq, hp]
          · exact hq.2
        · have henva : sa.env_ ≠ 0 := by rw [hs]; exact henv
          have hha : sa.handle_ = s.handle_ := by rw [hs]
          obtain ⟨i1, i2, i3, ⟨k, i4⟩, i5, i6, i7⟩ := ih rta rtb sa sb qs henva hrs
          have hea : sa.env_ = s.env_ := by rw [hs]
          have hans : rta.answer = rt.answer := by rw [hrt]
          have htr : rta.trace = rt.trace ++ [.GetStringUTFChars s.handle_] := by rw [hrt]
          refine ⟨i1.trans hea, i2.trans hha, i3.trans hans, ⟨k + 1, ?_⟩, ?_, ?_, ?_⟩
          · rw [i4, htr, hha, List.append_assoc, List.replicate_succ]
            rfl
          · intro q hq
            simp at hq
            rcases hq with hq | hq
            · by_cases hp0 : p = 0
              · left
                rw [hq, hp0]
              · right
                have hsa : sa.utf8_ ≠ 0 := by rw [hs]; exact hp0
                rw [reads_cached rs rta sa hsa] at hrs
                simp at hrs
                rw [hq, ← hrs.2.2, hs]
            · exact i5 q hq
          · intro hall _
            have hp0 : p = 0 := hall p (by simp)
            have hsa : sa.utf8_ = 0 := by rw [hs]; exact hp0
            exact i6 (fun q hq => hall q (by simp [hq])) hsa
          · right
            rcases i7 with i7 | ⟨t, i7⟩
            · exact ⟨rt.trace, by rw [i7, hs]; exact hp⟩
            · exact ⟨t, by rw [i7, hans, hha]⟩

end java_string_t

/-- C7, as stated, fails: on a bound view whose decode fails (returns null), two reads
invoke `GetStringUTFChars` twice. -/
theorem string_view_failed_decode_repeats :
    (java_string_t.ctor 1 5).env_ ≠ 0 ∧
    ((java_string_t.reads [.c_str, .c_str] failing_runtime (java_string_t.ctor 1 5)).map
      fun r => (r.1, r.2.1.trace, r.2.2)) =
      some ([0, 0], [.GetStringUTFChars 5, .GetStringUTFChars 5], java_string_t.ctor 1 5) := by
  decide

/-- C7, amended: on a bound view, if the decode of the first read returns a non-null
buffer, then any `n ≥ 1` reads invoke `GetStringUTFChars` exactly once, in the first read,
and every read returns that buffer; a decode that returns null is not cached, so the view
is left as it was and the next read decodes again. -/
theorem string_view_decodes_once (rt : Runtime) (env handle : Ptr) (henv : env ≠ 0) :
    (∀ (r : StringRead) (rs : List StringRead),
      rt.answer rt.trace (.GetStringUTFChars handle) ≠ 0 →
      java_string_t.reads (r :: rs) rt (java_string_t.ctor env handle) =
        some (List.replicate (rs.length + 1) (rt.answer rt.trace (.GetStringUTFChars handle)),
          { rt with trace := rt.trace ++ [.GetStringUTFChars handle] },
          { java_string_t.ctor env handle with
            utf8_ := rt.answer rt.trace (.GetStringUTFChars handle) })) ∧
    (∀ r : StringRead, r ≠ .std_string →
      rt.answer rt.trace (.GetStringUTFChars handle) = 0 →
      java_string_t.read r rt (java_string_t.ctor env handle) =
        some (0, { rt with trace := rt.trace ++ [.GetStringUTFChars handle] },
          java_string_t.ctor env handle)) := by
  constructor
  · intro r rs hp
    have h1 := java_string_t.read_fresh r rt (java_string_t.ctor env handle) henv rfl
      (fun _ => hp)
    rw [java_string_t.reads, h1]
    simp only []
    rw [java_string_t.reads_cached rs _ _ hp]
    rfl
  · intro r hr h0
    have h1 := java_string_t.read_fresh r rt (java_string_t.ctor env handle) henv rfl
      (fun h => absurd h hr)
    rw [h1]
    have e : (java_string_t.ctor env handle).handle_ = handle := rfl
    rw [e, h0]
    rfl

/-- C7, amended, at a run: three reads of a view of the string 5 decode once and all
return the buffer 100. -/
theorem string_view_decodes_once_witness :
    (1 : Ptr) ≠ 0 ∧
    java_string_t.reads [.c_str, .std_string, .const_char_ptr] counting_runtime
        (java_string_t.ctor 1 5) =
      some ([100, 100, 100],
        { counting_runtime with trace := [.GetStringUTFChars 5] },
        { java_string_t.ctor 1 5 with utf8_ := 100 }) :=
  ⟨by decide,
    (string_view_decodes_once counting_runtime 1 5 (by decide)).1 .c_str
      [.std_string, .const_char_ptr] (by decide)⟩

/-- C8, as stated, fails: on a bound view whose decode fails (returns null), a read
invokes the decode, and the destructor then makes no release call. -/
theorem string_view_failed_decode_not_released :
    ((java_string_t.reads [.c_str] failing_runtime (java_string_t.ctor 1 5)).bind
      fun r => (java_string_t.destructor r.2.1 r.2.2).map fun rt => rt.trace) =
      some [.GetStringUTFChars 5] := by
  decide

/-- C8, amended: after any successful reads of a bound view, which make no runtime call
other than decodes of its handle, the destructor calls `ReleaseStringUTFChars` exactly
once, with the handle of the view and the non-null buffer a decode returned, if some
read returned a non-null buffer, and makes no runtime call if none did; with no read at
all the runtime is left untouched. -/
theorem string_view_destructor (rt rt1 : Runtime) (env handle : Ptr) (rs : List StringRead)
    (ps : List Ptr) (s1 : java_string_t) (henv : env ≠ 0)
    (h : java_string_t.reads rs rt (java_string_t.ctor env handle) = some (ps, rt1, s1)) :
    (∃ k, rt1.trace = rt.trace ++ List.replicate k (.GetStringUTFChars handle)) ∧
    ((∀ p ∈ ps, p = 0) → java_string_t.destructor rt1 s1 = some rt1) ∧
    (∀ p ∈ ps, p ≠ 0 →
      (∃ t, p = rt.answer t (.GetStringUTFChars handle)) ∧
      java_string_t.destructor rt1 s1 =
        some { rt1 with trace := rt1.trace ++ [.ReleaseStringUTFChars handle p] }) ∧
    (rs = [] → java_string_t.destructor rt1 s1 = some rt) := by
  obtain ⟨i1, i2, _, i4, i5, i6, i7⟩ :=
    java_string_t.reads_spec rs rt rt1 (java_string_t.ctor env handle) s1 ps henv h
  have e1 : s1.env_ = env := i1
  have e2 : s1.handle_ = handle := i2
  refine ⟨i4, ?_, ?_, ?_⟩
  · intro hall
    have : s1.utf8_ = 0 := i6 hall rfl
    simp [java_string_t.destructor, this]
  · intro p hp hp0
    have hu : s1.utf8_ = p := by
      rcases i5 p hp with h0 | h1
      · exact absurd h0 hp0
      · exact h1.symm
    constructor
    · rcases i7 with i7 | ⟨t, i7⟩
      · have : s1.utf8_ = 0 := i7
        rw [hu] at this
        exact absurd this hp0
      · exact ⟨t, by rw [← hu]; exact i7⟩
    · have hne : s1.utf8_ ≠ 0 := by rw [hu]; exact hp0
      have henv1 : s1.env_ ≠ 0 := by rw [e1]; exact henv
      rw [java_string_t.destructor, if_pos hne, Runtime.call_eq _ _ _ henv1, e2, hu]
      rfl
  · intro hrs
    subst hrs
    simp [java_string_t.reads] at h
    obtain ⟨_, h2, h3⟩ := h
    subst h2 h3
    rfl

/-- C8, amended, at a run: two reads of a view of the string 5 decode the buffer 100, and
the destructor releases exactly that buffer. -/
theorem string_view_destructor_witness :
    (1 : Ptr) ≠ 0 ∧
    java_string_t.reads [.c_str, .std_string] counting_runtime (java_string_t.ctor 1 5) =
      some ([100, 100], { counting_runtime with trace := [.GetStringUTFChars 5] },
        { java_string_t.ctor 1 5 with utf8_ := 100 }) ∧
    java_string_t.destructor { counting_runtime with trace := [.GetStringUTFChars 5] }
        { java_string_t.ctor 1 5 with utf8_ := 100 } =
      some { counting_runtime with
        trace := [.GetStringUTFChars 5] ++ [.ReleaseStringUTFChars 5 100] } :=
  ⟨by decide, rfl,
    ((string_view_destructor counting_runtime
      { counting_runtime with trace := [.GetStringUTFChars 5] } 1 5 [.c_str, .std_string]
      [100, 100] { java_string_t.ctor 1 5 with utf8_ := 100 } (by decide) rfl).2.2.1
      100 (by simp) (by decide)).2⟩

/-! ## Global references -/

namespace java_global_ref_t

theorem move_assign_eq (self that : java_global_ref_t) : move_assign self that = (that, self) :=
  rfl

/-- A move assignment among the wrappers of a list permutes the list. -/
theorem assign_perm (ws : List java_global_ref_t) (dst src : Nat) :
    (assign ws dst src).Perm ws := by
  unfold assign
  cases hd : ws[dst]? with
  | none => simp
  | some d =>
    cases hs : ws[src]? with
    | none => simp
    | some s =>
      simp only [move_assign_eq]
      obtain ⟨hdl, hd1⟩ := List.getElem?_eq_some.mp hd
      obtain ⟨hsl, hs1⟩ := List.getElem?_eq_some.mp hs
      rw [List.perm_iff_count]
      intro x
      have hsl1 : src < (ws.set dst s).length := by simpa using hsl
      rw [List.count_set _ _ _ _ hsl1, List.count_set _ _ _ _ hdl]
      have hget : (ws.set dst s)[src] = s := by
        rw [List.getElem_set]
        split
        · rfl
        · exact hs1
      rw [hget, hd1]
      have hle : (if (d == x) = true then 1 else 0) ≤ List.count x ws := by
        have := List.boole_getElem_le_countP (fun y => y == x) ws dst hdl
        rw [hd1] at this
        exact this
      omega

theorem assigns_perm (moves : List (Nat × Nat)) :
    ∀ ws : List java_global_ref_t, (assigns ws moves).Perm ws := by
  induction moves with
  | nil => intro ws; exact List.Perm.refl _
  | cons m ms ih => intro ws; exact (ih _).trans (assign_perm ws m.1 m.2)

/-- Destroying wrappers that are bound or hold no handle releases each held handle. -/
theorem destroy_all_eq (ws : List java_global_ref_t) :
    ∀ rt : Runtime, (∀ w ∈ ws, w.env_ ≠ 0 ∨ w.handle_ = 0) →
      destroy_all rt ws = some { rt with trace := rt.trace ++ deletes ws } := by
  induction ws with
  | nil => intro rt _; simp [destroy_all, deletes]
  | cons w ws ih =>
    intro rt hws
    have hw := hws w (by simp)
    have hrest : ∀ v ∈ ws, v.env_ ≠ 0 ∨ v.handle_ = 0 := fun v hv => hws v (by simp [hv])
    by_cases hh : w.handle_ = 0
    · have e : destructor rt w = some rt := by simp [destructor, hh]
      rw [destroy_all, e]
      simp only []
      rw [ih rt hrest]
      simp [deletes, List.filter_cons, hh]
    · have henv : w.env_ ≠ 0 := by
        rcases hw with h | h
        · exact h
        · exact absurd h hh
      have e : destructor rt w =
          some { rt with trace := rt.trace ++ [.DeleteGlobalRef w.handle_] } := by
        simp [destructor, hh, Runtime.call_eq _ _ _ henv]
      rw [destroy_all, e]
      simp only []
      rw [ih _ hrest]
      simp [deletes, List.filter_cons, hh]

theorem count_deletes (ws : List java_global_ref_t) (r : Ptr) :
    (deletes ws).count (.DeleteGlobalRef r) =
      if r = 0 then 0 else ws.countP fun w => w.handle_ = r := by
  induction ws with
  | nil => simp [deletes]
  | cons w ws ih =>
    unfold deletes at ih ⊢
    by_cases hh : w.handle_ = 0
    · by_cases hr : r = 0
      · simp [List.filter_cons, hh, hr] at ih ⊢
        exact ih
      · have : ¬ w.handle_ = r := fun h => hr (by rw [← h, hh])
        have hr0 : ¬ 0 = r := fun h => hr h.symm
        simp [List.filter_cons, hh, hr, hr0, List.countP_cons, this] at ih ⊢
        exact ih
    · by_cases hr : r = 0
      · have : ¬ w.handle_ = r := fun h => hh (by rw [h, hr])
        simp [List.filter_cons, hh, hr, List.count_cons, this] at ih ⊢
        exact ih
      · by_cases hwr : w.handle_ = r
        · simp [List.filter_cons, hh, hr, List.count_cons, List.countP_cons, hwr] at ih ⊢
          exact ih
        · simp [List.filter_cons, hh, hr, List.count_cons, List.countP_cons, hwr] at ih ⊢
          exact ih

end java_global_ref_t

/-- C9, as stated, fails: after `g2 = std::move(g1)` between two promoted references, the
moved-from wrapper `g1` holds the reference 101 that `g2` held before, and its destructor
releases it. -/
theorem global_ref_moved_from_releases :
    java_global_ref_t.moved_from_scenario counting_runtime (java_object_t.ctor 1 5)
        (java_object_t.ctor 1 6) =
      some (⟨java_object_t.ctor 1 100⟩, ⟨java_object_t.ctor 1 101⟩, [.DeleteGlobalRef 101]) := by
  decide

/-- C9, amended: constructing a global reference wrapper from a bound object wrapper calls
`NewGlobalRef` exactly once, on the handle of the source, and stores what it returns.
After any sequence of move assignments among that wrapper and other wrappers, each bound
or holding no handle, destroying all of them succeeds and makes one `DeleteGlobalRef`
call for each wrapper that held a non-null reference and no other call: exactly one on
the promoted reference if it is non-null and held by no other wrapper, none if it is
null, and none on the handle of the source unless a wrapper holds it.  A move assignment
exchanges the two wrappers, so the moved-from wrapper releases what the destination held. -/
theorem global_ref_released_once (rt : Runtime) (object : java_object_t)
    (ws : List java_global_ref_t) (moves : List (Nat × Nat)) (hobj : object.env_ ≠ 0)
    (hws : ∀ w ∈ ws, w.env_ ≠ 0 ∨ w.handle_ = 0) :
    (∃ (g : java_global_ref_t) (rt1 : Runtime),
      java_global_ref_t.of_object rt object = some (rt1, g) ∧
      rt1.trace = rt.trace ++ [.NewGlobalRef object.handle_] ∧
      rt1.answer = rt.answer ∧
      g.env_ = object.env_ ∧
      g.handle_ = rt.answer rt.trace (.NewGlobalRef object.handle_) ∧
      ∃ calls : List JniCall,
        java_global_ref_t.destroy_all rt1 (java_global_ref_t.assigns (g :: ws) moves) =
          some { rt1 with trace := rt1.trace ++ calls } ∧
        calls.Perm (java_global_ref_t.deletes (g :: ws)) ∧
        (g.handle_ ≠ 0 → (∀ w ∈ ws, w.handle_ ≠ g.handle_) →
          calls.count (.DeleteGlobalRef g.handle_) = 1) ∧
        (g.handle_ = 0 → calls.count (.DeleteGlobalRef g.handle_) = 0) ∧
        (object.handle_ ≠ g.handle_ → (∀ w ∈ ws, w.handle_ ≠ object.handle_) →
          calls.count (.DeleteGlobalRef object.handle_) = 0)) ∧
    (∀ dst src : java_global_ref_t, java_global_ref_t.move_assign dst src = (src, dst)) := by
  refine ⟨?_, fun _ _ => rfl⟩
  refine ⟨⟨java_object_t.ctor object.env_ (rt.answer rt.trace (.NewGlobalRef object.handle_))⟩,
    { rt with trace := rt.trace ++ [.NewGlobalRef object.handle_] }, ?_, rfl, rfl, rfl, rfl, ?_⟩
  · simp [java_global_ref_t.of_object, java_global_ref_t.ctor, Runtime.call_eq _ _ _ hobj]
  · generalize hg : (⟨java_object_t.ctor object.env_
      (rt.answer rt.trace (.NewGlobalRef object.handle_))⟩ : java_global_ref_t) = g
    have hgenv : g.env_ ≠ 0 := by rw [← hg]; exact hobj
    generalize ({ rt with trace := rt.trace ++ [.NewGlobalRef object.handle_] } : Runtime) = rt1
    have hperm := java_global_ref_t.assigns_perm moves (g :: ws)
    have hall : ∀ w ∈ g :: ws, w.env_ ≠ 0 ∨ w.handle_ = 0 := by
      intro w hw
      rcases List.mem_cons.mp hw with h | h
      · rw [h]; exact Or.inl hgenv
      · exact hws w h
    have hall1 : ∀ w ∈ java_global_ref_t.assigns (g :: ws) moves, w.env_ ≠ 0 ∨ w.handle_ = 0 :=
      fun w hw => hall w (hperm.mem_iff.mp hw)
    have hdel : (java_global_ref_t.deletes (java_global_ref_t.assigns (g :: ws) moves)).Perm
        (java_global_ref_t.deletes (g :: ws)) :=
      (hperm.filter _).map _
    have hcount : ∀ r : Ptr,
        (java_global_ref_t.deletes (java_global_ref_t.assigns (g :: ws) moves)).count
          (.DeleteGlobalRef r) =
        if r = 0 then 0 else (g :: ws).countP fun w => w.handle_ = r := by
      intro r
      rw [hdel.count_eq, java_global_ref_t.count_deletes]
    have hnone : ∀ r : Ptr, (∀ w ∈ ws, w.handle_ ≠ r) →
        (ws.countP fun w => w.handle_ = r) = 0 := by
      intro r hr
      rw [List.countP_eq_zero]
      intro w hw
      simpa using hr w hw
    refine ⟨_, java_global_ref_t.destroy_all_eq _ rt1 hall1, hdel, ?_, ?_, ?_⟩
    · intro h0 hothers
      rw [hcount, if_neg h0, List.countP_cons, hnone _ hothers]
      simp
    · intro h0
      rw [hcount, if_pos h0]
    · intro hne hothers
      rw [hcount]
      split
      · rfl
      · rw [List.countP_cons, hnone _ hothers]
        have : ¬ g.handle_ = object.handle_ := fun h => hne h.symm
        simp [this]

/-- C9, amended, at a run: the object 5 is promoted to the reference 100, which is moved
through two other wrappers. -/
theorem global_ref_released_once_witness :
    (java_object_t.ctor 1 5).env_ ≠ 0 ∧
    (∀ w ∈ [(⟨java_object_t.ctor 1 7⟩ : java_global_ref_t), ⟨java_object_t.ctor 0 0⟩],
      w.env_ ≠ 0 ∨ w.handle_ = 0) ∧
    ((∃ (g : java_global_ref_t) (rt1 : Runtime),
      java_global_ref_t.of_object counting_runtime (java_object_t.ctor 1 5) = some (rt1, g) ∧
      rt1.trace = counting_runtime.trace ++ [.NewGlobalRef (java_object_t.ctor 1 5).handle_] ∧
      rt1.answer = counting_runtime.answer ∧
      g.env_ = (java_object_t.ctor 1 5).env_ ∧
      g.handle_ = counting_runtime.answer counting_runtime.trace
        (.NewGlobalRef (java_object_t.ctor 1 5).handle_) ∧
      ∃ calls : List JniCall,
        java_global_ref_t.destroy_all rt1 (java_global_ref_t.assigns
          (g :: [(⟨java_object_t.ctor 1 7⟩ : java_global_ref_t), ⟨java_object_t.ctor 0 0⟩])
          [(1, 0), (2, 1)]) =
          some { rt1 with trace := rt1.trace ++ calls } ∧
        calls.Perm (java_global_ref_t.deletes
          (g :: [(⟨java_object_t.ctor 1 7⟩ : java_global_ref_t), ⟨java_object_t.ctor 0 0⟩])) ∧
        (g.handle_ ≠ 0 →
          (∀ w ∈ [(⟨java_object_t.ctor 1 7⟩ : java_global_ref_t), ⟨java_object_t.ctor 0 0⟩],
            w.handle_ ≠ g.handle_) →
          calls.count (.DeleteGlobalRef g.handle_) = 1) ∧
        (g.handle_ = 0 → calls.count (.DeleteGlobalRef g.handle_) = 0) ∧
        ((java_object_t.ctor 1 5).handle_ ≠ g.handle_ →
          (∀ w ∈ [(⟨java_object_t.ctor 1 7⟩ : java_global_ref_t), ⟨java_object_t.ctor 0 0⟩],
            w.handle_ ≠ (java_object_t.ctor 1 5).handle_) →
          calls.count (.DeleteGlobalRef (java_object_t.ctor 1 5).handle_) = 0)) ∧
    (∀ dst src : java_global_ref_t, java_global_ref_t.move_assign dst src = (src, dst))) :=
  ⟨by decide, by decide,
    global_ref_released_once counting_runtime (java_object_t.ctor 1 5)
      [⟨java_object_t.ctor 1 7⟩, ⟨java_object_t.ctor 0 0⟩] [(1, 0), (2, 1)] (by decide)
      (by decide)⟩

/-! ## Primitive array views -/

/-- C10: on a bound primitive array view of any element kind, `abort()` on a pinned view
calls the array release of that kind exactly once, with the pinned pointer and the mode
`JNI_ABORT`, and clears the cached pointer; `abort()` on an unpinned view makes no
runtime call.  After either, the next pointer access and the next index access make one
pin call and return the pointer that call returned. -/
theorem array_abort_then_access (rt : Runtime) (a : java_primitive_array_t) (idx : Nat)
    (henv : a.env_ ≠ 0) :
    (a.elements_ ≠ 0 → java_primitive_array_t.abort rt a =
      some ({ rt with trace := rt.trace ++
          [.ReleaseArrayElements a.K a.handle_ a.elements_ JNI_ABORT] },
        { a with elements_ := 0 })) ∧
    (a.elements_ = 0 → java_primitive_array_t.abort rt a = some (rt, a)) ∧
    (∃ (rt1 : Runtime) (a1 : java_primitive_array_t),
      java_primitive_array_t.abort rt a = some (rt1, a1) ∧
      a1.elements_ = 0 ∧
      java_primitive_array_t.operator_T_ptr rt1 a1 =
        some (rt1.answer rt1.trace (.GetArrayElements a.K a.handle_),
          { rt1 with trace := rt1.trace ++ [.GetArrayElements a.K a.handle_] },
          { a with elements_ := rt1.answer rt1.trace (.GetArrayElements a.K a.handle_) }) ∧
      java_primitive_array_t.operator_index rt1 a1 idx =
        some ((rt1.answer rt1.trace (.GetArrayElements a.K a.handle_), idx),
          { rt1 with trace := rt1.trace ++ [.GetArrayElements a.K a.handle_] },
          { a with elements_ := rt1.answer rt1.trace (.GetArrayElements a.K a.handle_) })) := by
  have habort : a.elements_ ≠ 0 → java_primitive_array_t.abort rt a =
      some ({ rt with trace := rt.trace ++
          [.ReleaseArrayElements a.K a.handle_ a.elements_ JNI_ABORT] },
        { a with elements_ := 0 }) := by
    intro h
    simp [java_primitive_array_t.abort, java_primitive_array_t.release_array_elements, h,
      Runtime.call_eq _ _ _ henv]
  have hnone : a.elements_ = 0 → java_primitive_array_t.abort rt a = some (rt, a) := by
    intro h
    simp [java_primitive_array_t.abort, h]
  have haccess : ∀ (rt1 : Runtime) (a1 : java_primitive_array_t), a1.env_ = a.env_ →
      a1.handle_ = a.handle_ → a1.K = a.K → a1.elements_ = 0 →
      java_primitive_array_t.operator_T_ptr rt1 a1 =
        some (rt1.answer rt1.trace (.GetArrayElements a.K a.handle_),
          { rt1 with trace := rt1.trace ++ [.GetArrayElements a.K a.handle_] },
          { a1 with elements_ := rt1.answer rt1.trace (.GetArrayElements a.K a.handle_) }) := by
    intro rt1 a1 h1 h2 h3 h4
    have henv1 : a1.env_ ≠ 0 := by rw [h1]; exact henv
    simp [java_primitive_array_t.operator_T_ptr, java_primitive_array_t.get_array_elements, h4,
      Runtime.call_eq _ _ _ henv1, h2, h3]
  refine ⟨habort, hnone, ?_⟩
  by_cases h : a.elements_ = 0
  · refine ⟨rt, a, hnone h, h, ?_, ?_⟩
    · rw [haccess rt a rfl rfl rfl h]
    · rw [java_primitive_array_t.operator_index, haccess rt a rfl rfl rfl h]
  · refine ⟨_, _, habort h, rfl, ?_, ?_⟩
    · rw [haccess _ { a with elements_ := 0 } rfl rfl rfl rfl]
    · rw [java_primitive_array_t.operator_index, haccess _ { a with elements_ := 0 } rfl rfl rfl rfl]

/-- C10, at a run: an `int` array view of the array 5 pinned at 40 is aborted, and the next
access pins again. -/
theorem array_abort_then_access_witness :
    (⟨java_object_t.ctor 1 5, .int, 40⟩ : java_primitive_array_t).env_ ≠ 0 ∧
    java_primitive_array_t.abort counting_runtime ⟨java_object_t.ctor 1 5, .int, 40⟩ =
      some ({ counting_runtime with trace := [.ReleaseArrayElements .int 5 40 JNI_ABORT] },
        ⟨java_object_t.ctor 1 5, .int, 0⟩) ∧
    java_primitive_array_t.operator_T_ptr
        { counting_runtime with trace := [.ReleaseArrayElements .int 5 40 JNI_ABORT] }
        ⟨java_object_t.ctor 1 5, .int, 0⟩ =
      some (101,
        { counting_runtime with
          trace := [.ReleaseArrayElements .int 5 40 JNI_ABORT, .GetArrayElements .int 5] },
        ⟨java_object_t.ctor 1 5, .int, 101⟩) :=
  ⟨by decide,
    (array_abort_then_access counting_runtime ⟨java_object_t.ctor 1 5, .int, 40⟩ 0
      (by decide)).1 (by decide),
    rfl⟩

/-! ## Runs of operations on a primitive array view -/

namespace java_primitive_array_t

/-- An access to a pinned view returns the cached pointer without any runtime call. -/
theorem step_access_pinned (op : ArrayOp) (rt : Runtime) (a : java_primitive_array_t)
    (hop : op.is_access = true) (h : a.elements_ ≠ 0) :
    step op rt a = some (some a.elements_, rt, a) := by
  cases op <;> simp [ArrayOp.is_access] at hop <;>
    simp [step, operator_index, operator_T_ptr, h]

/-- An access to a bound view that is not pinned makes one pin call and caches what it
returned. -/
theorem step_access_unpinned (op : ArrayOp) (rt : Runtime) (a : java_primitive_array_t)
    (hop : op.is_access = true) (henv : a.env_ ≠ 0) (h : a.elements_ = 0) :
    step op rt a = some (some (rt.answer rt.trace (.GetArrayElements a.K a.handle_)),
      { rt with trace := rt.trace ++ [.GetArrayElements a.K a.handle_] },
      { a with elements_ := rt.answer rt.trace (.GetArrayElements a.K a.handle_) }) := by
  cases op <;> simp [ArrayOp.is_access] at hop <;>
    simp [step, operator_index, operator_T_ptr, get_array_elements, h,
      Runtime.call_eq _ _ _ henv]

/-- A `commit()` on a bound pinned view makes one release call with the mode `JNI_COMMIT`
and leaves the view as it was. -/
theorem step_commit_pinned (rt : Runtime) (a : java_primitive_array_t) (henv : a.env_ ≠ 0)
    (h : a.elements_ ≠ 0) :
    step .commit rt a = some (none,
      { rt with trace := rt.trace ++
          [.ReleaseArrayElements a.K a.handle_ a.elements_ JNI_COMMIT] }, a) := by
  simp [step, commit, release_array_elements, h, Runtime.call_eq _ _ _ henv]

/-- A `commit()` on a view that is not pinned does nothing. -/
theorem step_commit_unpinned (rt : Runtime) (a : java_primitive_array_t)
    (h : a.elements_ = 0) : step .commit rt a = some (none, rt, a) := by
  simp [step, commit, h]

/-- Accesses and commits on a bound pinned view. -/
theorem run_pinned (ops : List ArrayOp) :
    ∀ (rt : Runtime) (a : java_primitive_array_t), a.env_ ≠ 0 → a.elements_ ≠ 0 →
      (∀ op ∈ ops, op ≠ .abort) →
      run ops rt a = some (pinned_results a ops,
        { rt with trace := rt.trace ++ commit_calls a ops }, a) := by
  induction ops with
  | nil => intro rt a _ _ _; simp [run, pinned_results, commit_calls]
  | cons op ops ih =>
    intro rt a henv h hops
    have hop : op ≠ .abort := hops op (by simp)
    have hrest : ∀ o ∈ ops, o ≠ .abort := fun o ho => hops o (by simp [ho])
    by_cases hacc : op.is_access = true
    · have hc : op ≠ .commit := by
        intro hc
        rw [hc] at hacc
        simp [ArrayOp.is_access] at hacc
      rw [run, step_access_pinned op rt a hacc h]
      simp only []
      rw [ih rt a henv h hrest]
      simp [pinned_results, commit_calls, hacc, hc]
    · have hc : op = .commit := by
        cases op <;> simp [ArrayOp.is_access] at hacc hop ⊢
      subst hc
      rw [run, step_commit_pinned rt a henv h]
      simp only []
      rw [ih _ a henv h hrest]
      simp [pinned_results, commit_calls, ArrayOp.is_access]

/-- Commits in front of the first access of a view that is not pinned do nothing. -/
theorem run_commits_unpinned (k : Nat) (rest : List ArrayOp) (rt : Runtime)
    (a : java_primitive_array_t) (h : a.elements_ = 0) :
    run (List.replicate k .commit ++ rest) rt a =
      (run rest rt a).map fun r => (List.replicate k none ++ r.1, r.2) := by
  induction k with
  | zero =>
    cases hr : run rest rt a <;> simp [hr]
  | succ k ih =>
    rw [List.replicate_succ, List.cons_append, run, step_commit_unpinned rt a h]
    simp only []
    rw [ih]
    cases hr : run rest rt a <;> simp [List.replicate_succ]

end java_primitive_array_t

/-- C11, as stated, fails: on a bound view whose pin fails (returns null), two pointer
accesses invoke the pin call twice. -/
theorem array_failed_pin_repeats :
    (java_primitive_array_t.ctor .int 1 5).env_ ≠ 0 ∧
    ((java_primitive_array_t.run [.pointer, .pointer] failing_runtime
        (java_primitive_array_t.ctor .int 1 5)).map
      fun r => (r.1, r.2.1.trace, r.2.2)) =
      some ([some 0, some 0], [.GetArrayElements .int 5, .GetArrayElements .int 5],
        java_primitive_array_t.ctor .int 1 5) := by
  decide

/-- C11, amended: on a bound view, a `commit()` before any access makes no runtime call;
if the pin call of the first access returns a non-null pointer, then over any sequence
of pointer accesses, index accesses and commits (no abort) the pin call is made exactly
once, by the first access, every access returns that pointer, and each commit after the
first access makes one release call with the mode `JNI_COMMIT` and leaves the cached
pointer unchanged; a pin call that returns null is not cached, so the view is left as it
was and the next access pins again. -/
theorem array_pinned_once (rt : Runtime) (K : Primitive) (env handle : Ptr) (henv : env ≠ 0) :
    (∀ (k : Nat) (first : ArrayOp) (post : List ArrayOp), first.is_access = true →
      (∀ op ∈ post, op ≠ .abort) →
      rt.answer rt.trace (.GetArrayElements K handle) ≠ 0 →
      java_primitive_array_t.run (List.replicate k .commit ++ first :: post) rt
          (java_primitive_array_t.ctor K env handle) =
        some (List.replicate k none ++
            some (rt.answer rt.trace (.GetArrayElements K handle)) ::
              java_primitive_array_t.pinned_results
                { java_primitive_array_t.ctor K env handle with
                  elements_ := rt.answer rt.trace (.GetArrayElements K handle) } post,
          { rt with trace := rt.trace ++ (.GetArrayElements K handle ::
              java_primitive_array_t.commit_calls
                ({ java_primitive_array_t.ctor K env handle with
                  elements_ := rt.answer rt.trace (.GetArrayElements K handle) }) post) },
          { java_primitive_array_t.ctor K env handle with
            elements_ := rt.answer rt.trace (.GetArrayElements K handle) })) ∧
    java_primitive_array_t.commit rt (java_primitive_array_t.ctor K env handle) = some rt ∧
    (∀ op : ArrayOp, op.is_access = true →
      rt.answer rt.trace (.GetArrayElements K handle) = 0 →
      java_primitive_array_t.step op rt (java_primitive_array_t.ctor K env handle) =
        some (some 0, { rt with trace := rt.trace ++ [.GetArrayElements K handle] },
          java_primitive_array_t.ctor K env handle)) := by
  refine ⟨?_, ?_, ?_⟩
  · intro k first post hfirst hpost hp
    rw [java_primitive_array_t.run_commits_unpinned k _ rt _ rfl, java_primitive_array_t.run,
      java_primitive_array_t.step_access_unpinned first rt _ hfirst henv rfl]
    simp only []
    rw [java_primitive_array_t.run_pinned post _ _ henv hp hpost]
    simp [java_primitive_array_t.ctor, java_object_t.ctor]
  · simp [java_primitive_array_t.commit, java_primitive_array_t.ctor]
  · intro op hop h0
    rw [java_primitive_array_t.step_access_unpinned op rt _ hop henv rfl]
    have e : (java_primitive_array_t.ctor K env handle).K = K := rfl
    have e2 : (java_primitive_array_t.ctor K env handle).handle_ = handle := rfl
    rw [e, e2, h0]
    rfl

/-- C11, amended, at a run: a commit, two accesses and a commit on a `short` array view of
the array 5 pin once, at 100, and commit once. -/
theorem array_pinned_once_witness :
    (1 : Ptr) ≠ 0 ∧
    java_primitive_array_t.run [.commit, .pointer, .index 3, .commit] counting_runtime
        (java_primitive_array_t.ctor .short 1 5) =
      some ([none, some 100, some 100, none],
        { counting_runtime with
          trace := [.GetArrayElements .short 5, .ReleaseArrayElements .short 5 100 JNI_COMMIT] },
        { java_primitive_array_t.ctor .short 1 5 with elements_ := 100 }) :=
  ⟨by decide,
    (array_pinned_once counting_runtime .short 1 5 (by decide)).1 1 .pointer
      [.index 3, .commit] rfl (by decide) (by decide)⟩

/-! ## Pins and releases over the life of a primitive array view -/

namespace java_primitive_array_t

theorem successful_pins_append (answer : List JniCall → JniCall → Ptr) (xs ys : List JniCall) :
    ∀ before : List JniCall, successful_pins answer before (xs ++ ys) =
      successful_pins answer before xs + successful_pins answer (before ++ xs) ys := by
  induction xs with
  | nil => intro before; simp [successful_pins]
  | cons x xs ih =>
    intro before
    have e : before ++ [x] ++ xs = before ++ x :: xs := by simp
    have h := ih (before ++ [x])
    rw [e] at h
    show _ + successful_pins answer (before ++ [x]) (xs ++ ys) = _
    rw [h]
    simp only [successful_pins, Nat.add_assoc]

theorem final_releases_append (xs ys : List JniCall) :
    final_releases (xs ++ ys) = final_releases xs + final_releases ys := by
  simp [final_releases, List.countP_append]

/-- Every operation on a bound view returns, and keeps the successful pin calls and the
final releases in balance with the pinned state. -/
theorem step_balanced (op : ArrayOp) (rt : Runtime) (a : java_primitive_array_t)
    (henv : a.env_ ≠ 0) :
    ∃ (r : Option Ptr) (rt1 : Runtime) (a1 : java_primitive_array_t) (calls : List JniCall),
      step op rt a = some (r, rt1, a1) ∧ rt1.trace = rt.trace ++ calls ∧
      rt1.answer = rt.answer ∧ a1.env_ = a.env_ ∧
      successful_pins rt.answer rt.trace calls + pinned a = final_releases calls + pinned a1 := by
  by_cases h : a.elements_ = 0
  · by_cases hacc : op.is_access = true
    · refine ⟨_, _, _, [.GetArrayElements a.K a.handle_],
        step_access_unpinned op rt a hacc henv h, rfl, rfl, rfl, ?_⟩
      simp only [successful_pins, final_releases, pinned, h]
      by_cases hp : rt.answer rt.trace (.GetArrayElements a.K a.handle_) = 0 <;>
        simp [hp, is_final_release]
    · refine ⟨none, rt, a, [], ?_, by simp, rfl, rfl, by simp [successful_pins, final_releases]⟩
      cases op <;> simp [ArrayOp.is_access] at hacc
      · exact step_commit_unpinned rt a h
      · simp [step, abort, h]
  · by_cases hacc : op.is_access = true
    · exact ⟨_, rt, a, [], step_access_pinned op rt a hacc h, by simp, rfl, rfl,
        by simp [successful_pins, final_releases]⟩
    · cases op <;> simp [ArrayOp.is_access] at hacc
      · refine ⟨_, _, a, [.ReleaseArrayElements a.K a.handle_ a.elements_ JNI_COMMIT],
          step_commit_pinned rt a henv h, rfl, rfl, rfl, ?_⟩
        simp [successful_pins, final_releases, is_final_release, JNI_COMMIT, JNI_ABORT]
      · refine ⟨none, { rt with trace := rt.trace ++
            [.ReleaseArrayElements a.K a.handle_ a.elements_ JNI_ABORT] },
          { a with elements_ := 0 },
          [.ReleaseArrayElements a.K a.handle_ a.elements_ JNI_ABORT], ?_, rfl, rfl, rfl, ?_⟩
        · simp [step, abort, release_array_elements, h, Runtime.call_eq _ _ _ henv]
        · simp [successful_pins, final_releases, is_final_release, pinned, h]

theorem run_balanced (ops : List ArrayOp) :
    ∀ (rt : Runtime) (a : java_primitive_array_t), a.env_ ≠ 0 →
      ∃ (rs : List (Option Ptr)) (rt1 : Runtime) (a1 : java_primitive_array_t)
        (calls : List JniCall),
        run ops rt a = some (rs, rt1, a1) ∧ rt1.trace = rt.trace ++ calls ∧
        rt1.answer = rt.answer ∧ a1.env_ = a.env_ ∧
        successful_pins rt.answer rt.trace calls + pinned a =
          final_releases calls + pinned a1 := by
  induction ops with
  | nil =>
    intro rt a _
    exact ⟨[], rt, a, [], rfl, by simp, rfl, rfl, by simp [successful_pins, final_releases]⟩
  | cons op ops ih =>
    intro rt a henv
    obtain ⟨r, rta, aa, ca, h1, h2, h3, h4, h5⟩ := step_balanced op rt a henv
    obtain ⟨rs, rtb, ab, cb, k1, k2, k3, k4, k5⟩ := ih rta aa (by rw [h4]; exact henv)
    refine ⟨r :: rs, rtb, ab, ca ++ cb, ?_, ?_, k3.trans h3, k4.trans h4, ?_⟩
    · rw [run, h1]
      simp only [k1]
    · rw [k2, h2, List.append_assoc]
    · rw [h3, h2] at k5
      rw [successful_pins_append, final_releases_append]
      omega

/-- The destructor of a bound view returns and ends the pin, if there is one. -/
theorem destructor_balanced (rt : Runtime) (a : java_primitive_array_t) (henv : a.env_ ≠ 0) :
    ∃ (rt1 : Runtime) (calls : List JniCall),
      destructor rt a = some rt1 ∧ rt1.trace = rt.trace ++ calls ∧
      successful_pins rt.answer rt.trace calls + pinned a = final_releases calls := by
  by_cases h : a.elements_ = 0
  · exact ⟨rt, [], by simp [destructor, h], by simp,
      by simp [successful_pins, final_releases, pinned, h]⟩
  · refine ⟨{ rt with trace := rt.trace ++ [.ReleaseArrayElements a.K a.handle_ a.elements_ 0] },
      [.ReleaseArrayElements a.K a.handle_ a.elements_ 0], ?_, rfl, ?_⟩
    · simp [destructor, release_array_elements, h, Runtime.call_eq _ _ _ henv]
    · simp [successful_pins, final_releases, is_final_release, pinned, h]

end java_primitive_array_t

/-- C12, as stated, fails: on a bound view whose pin fails (returns null), an access makes
a pin call, and the destructor then makes no release call, so that pin call is matched
by no release. -/
theorem array_failed_pin_not_released :
    ((java_primitive_array_t.run [.pointer] failing_runtime
        (java_primitive_array_t.ctor .int 1 5)).bind
      fun r => (java_primitive_array_t.destructor r.2.1 r.2.2).map fun rt => rt.trace) =
      some [.GetArrayElements .int 5] := by
  decide

/-- C12, amended: the destructor of a bound primitive array view of any element kind makes
exactly one release call, with the pinned pointer and the mode 0, if the view is pinned,
and no call if it is not; after `abort()` it makes no call.  Over any sequence of
accesses, commits and aborts on a view that starts unpinned, followed by its
destruction, every operation returns and the pin calls that returned a non-null pointer
are as many as the releases with the mode 0 or `JNI_ABORT`. -/
theorem array_destructor (rt : Runtime) (a : java_primitive_array_t) (henv : a.env_ ≠ 0) :
    (a.elements_ ≠ 0 → java_primitive_array_t.destructor rt a =
      some { rt with trace := rt.trace ++
        [.ReleaseArrayElements a.K a.handle_ a.elements_ 0] }) ∧
    (a.elements_ = 0 → java_primitive_array_t.destructor rt a = some rt) ∧
    (∀ (rt1 : Runtime) (a1 : java_primitive_array_t),
      java_primitive_array_t.abort rt a = some (rt1, a1) →
      java_primitive_array_t.destructor rt1 a1 = some rt1) ∧
    (∀ ops : List ArrayOp, a.elements_ = 0 →
      ∃ (rs : List (Option Ptr)) (rt1 rt2 : Runtime) (a1 : java_primitive_array_t)
        (calls : List JniCall),
        java_primitive_array_t.run ops rt a = some (rs, rt1, a1) ∧
        java_primitive_array_t.destructor rt1 a1 = some rt2 ∧
        rt2.trace = rt.trace ++ calls ∧
        java_primitive_array_t.successful_pins rt.answer rt.trace calls =
          java_primitive_array_t.final_releases calls) := by
  refine ⟨?_, ?_, ?_, ?_⟩
  · intro h
    simp [java_primitive_array_t.destructor, java_primitive_array_t.release_array_elements, h,
      Runtime.call_eq _ _ _ henv]
  · intro h
    simp [java_primitive_array_t.destructor, h]
  · intro rt1 a1 hab
    have h0 : a1.elements_ = 0 := by
      by_cases h : a.elements_ = 0
      · simp [java_primitive_array_t.abort, h] at hab
        rw [← hab.2]
        exact h
      · simp [java_primitive_array_t.abort, java_primitive_array_t.release_array_elements, h,
          Runtime.call_eq _ _ _ henv] at hab
        rw [← hab.2]
    simp [java_primitive_array_t.destructor, h0]
  · intro ops h
    obtain ⟨rs, rt1, a1, c1, h1, h2, h3, h4, h5⟩ :=
      java_primitive_array_t.run_balanced ops rt a henv
    obtain ⟨rt2, c2, k1, k2, k3⟩ :=
      java_primitive_array_t.destructor_balanced rt1 a1 (by rw [h4]; exact henv)
    refine ⟨rs, rt1, rt2, a1, c1 ++ c2, h1, k1, by rw [k2, h2, List.append_assoc], ?_⟩
    rw [h3, h2] at k3
    rw [java_primitive_array_t.successful_pins_append,
      java_primitive_array_t.final_releases_append]
    have hp : java_primitive_array_t.pinned a = 0 := by
      simp [java_primitive_array_t.pinned, h]
    omega

/-- C12, at a run: a `double` array view of the array 5 pinned at 40 is destroyed with one
release of mode 0. -/
theorem array_destructor_witness :
    (⟨java_object_t.ctor 1 5, .double, 40⟩ : java_primitive_array_t).env_ ≠ 0 ∧
    java_primitive_array_t.destructor counting_runtime ⟨java_object_t.ctor 1 5, .double, 40⟩ =
      some { counting_runtime with trace := [.ReleaseArrayElements .double 5 40 0] } :=
  ⟨by decide,
    (array_destructor counting_runtime ⟨java_object_t.ctor 1 5, .double, 40⟩ (by decide)).1
      (by decide)⟩

/-! ## Move assignment and default construction of the wrappers -/

/-- C13, as stated, fails: after `dst = std::move(src)` between two owned thread contexts
the source holds the runtime, the context and the owned flag the destination held, and
after the same between two string views the source holds the handle and the decode
buffer the destination held. -/
theorem move_assign_source_not_unbound :
    java_env_t.move_assign ⟨7, 8, true⟩ ⟨9, 10, true⟩ = (⟨9, 10, true⟩, ⟨7, 8, true⟩) ∧
    (java_env_t.move_assign ⟨7, 8, true⟩ ⟨9, 10, true⟩).2 ≠ java_env_t.default_ctor ∧
    java_string_t.move_assign ⟨java_object_t.ctor 1 5, 40⟩ ⟨java_object_t.ctor 1 6, 0⟩ =
      (⟨java_object_t.ctor 1 6, 0⟩, ⟨java_object_t.ctor 1 5, 40⟩) := by
  decide

/-- C13, amended: for each of the eight wrapper types the move assignment
`dst = std::move(src)` exchanges the two wrappers: the destination holds exactly what the
source held, and the source holds exactly what the destination held before, so it is
unbound exactly when the destination was. -/
theorem move_assign_exchanges :
    (∀ dst src : java_object_t, java_object_t.move_assign dst src = (src, dst)) ∧
    (∀ dst src : java_global_ref_t, java_global_ref_t.move_assign dst src = (src, dst)) ∧
    (∀ dst src : java_string_t, java_string_t.move_assign dst src = (src, dst)) ∧
    (∀ dst src : java_primitive_array_t, java_primitive_array_t.move_assign dst src =
      ({ src with K := dst.K }, { dst with K := src.K })) ∧
    (∀ dst src : java_byte_buffer_t, java_byte_buffer_t.move_assign dst src = (src, dst)) ∧
    (∀ dst src : java_class_t, java_class_t.move_assign dst src = (src, dst)) ∧
    (∀ dst src : java_env_t, java_env_t.move_assign dst src = (src, dst)) ∧
    (∀ dst src : java_vm_t, java_vm_t.move_assign dst src = (src, dst)) :=
  ⟨fun _ _ => rfl, fun _ _ => rfl, fun _ _ => rfl, fun _ _ => rfl, fun _ _ => rfl,
    fun _ _ => rfl, fun _ _ => rfl, fun _ _ => rfl⟩

/-- What default construction does establish: the cached buffer, the pinned pointer, the
buffer address and capacity and the owned flags are null, and the destructors of a
default-constructed string view, array view, thread context and runtime instance make
no call.  The handle of every wrapper built on `java_object_t` is whatever the
uninitialised member holds. -/
theorem default_ctor_members (indeterminate : Ptr) (K : Primitive) (rt : Runtime)
    (inv : Invocation) :
    (java_object_t.default_ctor indeterminate).handle_ = indeterminate ∧
    (java_global_ref_t.default_ctor indeterminate).handle_ = indeterminate ∧
    (java_string_t.default_ctor indeterminate).handle_ = indeterminate ∧
    (java_primitive_array_t.default_ctor K indeterminate).handle_ = indeterminate ∧
    (java_byte_buffer_t.default_ctor indeterminate).handle_ = indeterminate ∧
    (java_class_t.default_ctor indeterminate).handle_ = indeterminate ∧
    (java_string_t.default_ctor indeterminate).utf8_ = 0 ∧
    (java_primitive_array_t.default_ctor K indeterminate).elements_ = 0 ∧
    (java_byte_buffer_t.default_ctor indeterminate).data_ = 0 ∧
    (java_byte_buffer_t.default_ctor indeterminate).size_ = 0 ∧
    java_env_t.default_ctor = ⟨0, 0, false⟩ ∧
    java_vm_t.default_ctor = ⟨0, false⟩ ∧
    java_string_t.destructor rt (java_string_t.default_ctor indeterminate) = some rt ∧
    java_primitive_array_t.destructor rt (java_primitive_array_t.default_ctor K indeterminate) =
      some rt ∧
    java_env_t.destructor inv java_env_t.default_ctor = some inv ∧
    java_vm_t.destructor inv java_vm_t.default_ctor = some inv ∧
    (indeterminate = 0 →
      java_global_ref_t.destructor rt (java_global_ref_t.default_ctor indeterminate) =
        some rt) ∧
    (indeterminate ≠ 0 →
      java_global_ref_t.destructor rt (java_global_ref_t.default_ctor indeterminate) =
        none) := by
  refine ⟨rfl, rfl, rfl, rfl, rfl, rfl, rfl, rfl, rfl, rfl, rfl, rfl, rfl, rfl, rfl, rfl, ?_, ?_⟩
  · intro h
    simp [java_global_ref_t.destructor, java_global_ref_t.default_ctor,
      java_object_t.default_ctor, h]
  · intro h
    simp [java_global_ref_t.destructor, java_global_ref_t.default_ctor,
      java_object_t.default_ctor, h, Runtime.call]

/-- C14: a default-constructed global reference wrapper whose uninitialised handle happens
to hold 7 has a null `env_` and the handle 7, not a null handle, and its destructor calls
`DeleteGlobalRef` through the null `env_`; likewise the handle of a default-constructed
object wrapper is 7. -/
theorem default_ctor_handle_uninitialised :
    (java_object_t.default_ctor 7).handle_ = 7 ∧
    (java_global_ref_t.default_ctor 7).env_ = 0 ∧
    (java_global_ref_t.default_ctor 7).handle_ = 7 ∧
    (java_global_ref_t.destructor counting_runtime (java_global_ref_t.default_ctor 7)).isNone =
      true := by
  decide

/-! ## Class, field and method resolution -/

/-- What resolving a class does: one `FindClass` call with the C string of `N`; an error
exactly when it returns null, with a message that names `java/lang/Class` whatever `N`
is; otherwise a wrapper of the returned class handle. -/
theorem java_class_t.resolve_eq (rt : Runtime) (N : java_string_literal_t) (env : Ptr)
    (henv : env ≠ 0) :
    java_class_t.resolve rt N env =
      some (if rt.answer rt.trace (.FindClass N.c_str) = 0 then
          .error "Could not find class with name 'java/lang/Class'".toList
        else .ok ⟨java_object_t.ctor env (rt.answer rt.trace (.FindClass N.c_str))⟩,
        { rt with trace := rt.trace ++ [.FindClass N.c_str] }) := by
  have hn : java_class_t.name.c_str = "java/lang/Class".toList := by decide
  simp only [java_class_t.resolve, Runtime.call_eq _ _ _ henv, hn]
  split <;> rfl

/-- C15: resolving the class `fixtures/Missing` when the runtime finds no class makes one
`FindClass` call with that name and raises an error whose message names
`java/lang/Class`, not `fixtures/Missing`. -/
theorem class_resolution_error_names_base_class :
    (lit "fixtures/Missing").c_str = "fixtures/Missing".toList ∧
    ((java_class_t.resolve failing_runtime (lit "fixtures/Missing") 1).map
      fun r => (r.1.toOption, r.2.trace)) =
      some (none, [.FindClass "fixtures/Missing".toList]) ∧
    ((java_class_t.resolve failing_runtime (lit "fixtures/Missing") 1).bind
      fun r => match r.1 with
        | .error message => some message
        | .ok _ => none) =
      some "Could not find class with name 'java/lang/Class'".toList := by
  decide

/-- C16: on a bound class wrapper, each of `get_field`, `get_static_field`, `get_method`
and `get_static_method` makes exactly one runtime lookup, of its own variant, with the
class handle, the name and the signature derived for `U`; it raises an error, whose
message holds the name and that signature, exactly when the lookup returns null, and
otherwise returns a handle made of the thread context, the class handle and the
identifier the lookup returned. -/
theorem member_lookup (rt : Runtime) (c : java_class_t) (U : Declared) (n : List Char)
    (henv : c.env_ ≠ 0) :
    java_class_t.get_field rt c U n =
      some (if rt.answer rt.trace (.GetFieldID c.handle_ n U.signature.c_str) = 0 then
          .error ("Could not find field '".toList ++ n ++ "' with signature '".toList ++
            U.signature.c_str ++ "'".toList)
        else .ok ⟨⟨c.env_, c.handle_,
          rt.answer rt.trace (.GetFieldID c.handle_ n U.signature.c_str)⟩⟩,
        { rt with trace := rt.trace ++ [.GetFieldID c.handle_ n U.signature.c_str] }) ∧
    java_class_t.get_static_field rt c U n =
      some (if rt.answer rt.trace (.GetStaticFieldID c.handle_ n U.signature.c_str) = 0 then
          .error ("Could not find field '".toList ++ n ++ "' with signature '".toList ++
            U.signature.c_str ++ "'".toList)
        else .ok ⟨⟨c.env_, c.handle_,
          rt.answer rt.trace (.GetStaticFieldID c.handle_ n U.signature.c_str)⟩⟩,
        { rt with trace := rt.trace ++ [.GetStaticFieldID c.handle_ n U.signature.c_str] }) ∧
    java_class_t.get_method rt c U n =
      some (if rt.answer rt.trace (.GetMethodID c.handle_ n U.signature.c_str) = 0 then
          .error ("Could not find method '".toList ++ n ++ "' with signature '".toList ++
            U.signature.c_str ++ "'".toList)
        else .ok ⟨⟨c.env_, c.handle_,
          rt.answer rt.trace (.GetMethodID c.handle_ n U.signature.c_str)⟩⟩,
        { rt with trace := rt.trace ++ [.GetMethodID c.handle_ n U.signature.c_str] }) ∧
    java_class_t.get_static_method rt c U n =
      some (if rt.answer rt.trace (.GetStaticMethodID c.handle_ n U.signature.c_str) = 0 then
          .error ("Could not find method '".toList ++ n ++ "' with signature '".toList ++
            U.signature.c_str ++ "'".toList)
        else .ok ⟨⟨c.env_, c.handle_,
          rt.answer rt.trace (.GetStaticMethodID c.handle_ n U.signature.c_str)⟩⟩,
        { rt with trace := rt.trace ++ [.GetStaticMethodID c.handle_ n U.signature.c_str] }) := by
  refine ⟨?_, ?_, ?_, ?_⟩
  · simp only [java_class_t.get_field, Runtime.call_eq _ _ _ henv]
    split <;> rfl
  · simp only [java_class_t.get_static_field, Runtime.call_eq _ _ _ henv]
    split <;> rfl
  · simp only [java_class_t.get_method, Runtime.call_eq _ _ _ henv]
    split <;> rfl
  · simp only [java_class_t.get_static_method, Runtime.call_eq _ _ _ henv]
    split <;> rfl

/-- C16, at a run: on the class 50, the method `value` of shape `int()` is looked up with
the signature `()I` and found as 100; the field `count` of type `int` is not found when
the runtime returns null. -/
theorem member_lookup_witness :
    (java_class_t.ctor 1 50).env_ ≠ 0 ∧
    java_class_t.get_method counting_runtime (java_class_t.ctor 1 50) (.function .int [])
        "value".toList =
      some (.ok ⟨⟨1, 50, 100⟩⟩,
        { counting_runtime with trace := [.GetMethodID 50 "value".toList "()I".toList] }) ∧
    java_class_t.get_field failing_runtime (java_class_t.ctor 1 50) (.type .int)
        "count".toList =
      some (.error "Could not find field 'count' with signature 'I'".toList,
        { failing_runtime with trace := [.GetFieldID 50 "count".toList "I".toList] }) :=
  ⟨by decide,
    (member_lookup counting_runtime (java_class_t.ctor 1 50) (.function .int [])
      "value".toList (by decide)).2.2.1,
    (member_lookup failing_runtime (java_class_t.ctor 1 50) (.type .int)
      "count".toList (by decide)).1⟩

/-! ## Method invocation -/

/-- The conversion to the native type of a kind leaves the values of that type as they
are. -/
theorem java_to_native_of_native_value (p : Platform)
    (hp : p.long_bits = 32 ∨ p.long_bits = 64) (K : Primitive) (v : Int)
    (hv : native_value p K v) : java_to_native p K v = v := by
  cases K <;> simp only [native_value, java_to_native, to_unsigned, to_signed] at hv ⊢
  · rcases hv with h | h <;> subst h <;> decide
  · norm_num at hv ⊢
    omega
  · cases hc : p.char_signed <;> simp only [hc] at hv ⊢ <;> norm_num at hv ⊢ <;> omega
  · norm_num at hv ⊢
    omega
  · norm_num at hv ⊢
    omega
  · rcases hp with h | h <;> simp only [h] at hv ⊢ <;> norm_num at hv ⊢ <;> omega

/-- What calling a method handle of a primitive return kind does.  For an instance
receiver: one `Call<K>MethodA` call with the receiver, the method identifier of the
handle and the packed arguments, whose value comes back unchanged when it is a value of
the native type.  For a static receiver: one `CallStatic<K>MethodA` call with the class
and the method identifier of the handle, whose value comes back unchanged when it is a
value of the native type and `K` is not `short`. -/
theorem method_call_eq (p : Platform) (hp : p.long_bits = 32 ∨ p.long_bits = 64)
    (K : Primitive) (rt : Runtime) (env clazz id : Ptr) (receiver : java_object_t)
    (args : List Argument) (henv : env ≠ 0) :
    (∃ r : Int, java_method_t.call p K rt ⟨⟨env, clazz, id⟩⟩ receiver args =
        some (r, { rt with trace := rt.trace ++
          [.CallMethodA K receiver.handle_ id (args.map java_marshall_argument_value)] }) ∧
      (native_value p K (java_result K (rt.answer rt.trace
          (.CallMethodA K receiver.handle_ id (args.map java_marshall_argument_value)))) →
        r = java_result K (rt.answer rt.trace
          (.CallMethodA K receiver.handle_ id (args.map java_marshall_argument_value))))) ∧
    (∃ r : Int, java_static_method_t.call p K rt ⟨⟨env, clazz, id⟩⟩ args =
        some (r, { rt with trace := rt.trace ++
          [.CallStaticMethodA K clazz id (args.map java_marshall_argument_value)] }) ∧
      (K ≠ .short →
        native_value p K (java_result K (rt.answer rt.trace
          (.CallStaticMethodA K clazz id (args.map java_marshall_argument_value)))) →
        r = java_result K (rt.answer rt.trace
          (.CallStaticMethodA K clazz id (args.map java_marshall_argument_value))))) := by
  constructor
  · refine ⟨java_to_native p K (java_to_native p K (java_result K (rt.answer rt.trace
      (.CallMethodA K receiver.handle_ id (args.map java_marshall_argument_value))))), ?_, ?_⟩
    · simp only [java_method_t.call, java_method_invoker_t.call, Runtime.call_eq _ _ _ henv]
    · intro hv
      rw [java_to_native_of_native_value p hp K _ hv, java_to_native_of_native_value p hp K _ hv]
  · refine ⟨java_to_native p K (java_method_invoker_t.static_return p K (java_result K
      (rt.answer rt.trace
        (.CallStaticMethodA K clazz id (args.map java_marshall_argument_value))))), ?_, ?_⟩
    · simp only [java_static_method_t.call, java_method_invoker_t.call_static,
        Runtime.call_eq _ _ _ henv]
    · intro hK hv
      have e : ∀ v, java_method_invoker_t.static_return p K v = java_to_native p K v := by
        intro v
        cases K <;> first | rfl | exact absurd rfl hK
      simp only [e]
      rw [java_to_native_of_native_value p hp K _ hv, java_to_native_of_native_value p hp K _ hv]

/-- C17: a static method handle of shape `short()` whose `CallStaticShortMethodA` call
returns 300, a value of `short`, returns 44 to the caller; the same value returned by
`CallShortMethodA` to an instance method handle comes back as 300.  Each makes exactly
one runtime call, the typed invoke of its receiver variant with the method identifier
of the handle. -/
theorem static_short_call_truncates :
    java_result .short 300 = 300 ∧
    native_value ⟨true, 64⟩ .short 300 ∧
    ((java_static_method_t.call ⟨true, 64⟩ .short (constant_runtime 300) ⟨⟨1, 20, 30⟩⟩ []).map
      fun r => (r.1, r.2.trace)) = some (44, [.CallStaticMethodA .short 20 30 []]) ∧
    ((java_static_method_t.call ⟨false, 64⟩ .short (constant_runtime 300) ⟨⟨1, 20, 30⟩⟩ []).map
      fun r => (r.1, r.2.trace)) = some (44, [.CallStaticMethodA .short 20 30 []]) ∧
    ((java_method_t.call ⟨true, 64⟩ .short (constant_runtime 300) ⟨⟨1, 20, 30⟩⟩
        (java_object_t.ctor 1 9) []).map
      fun r => (r.1, r.2.trace)) = some (300, [.CallMethodA .short 9 30 []]) := by
  decide

/-! ## Discovery of a created runtime -/

/-- What `get_created()` does: one `JNI_GetCreatedJavaVMs` call with a buffer of one; absent
when the status is not `JNI_OK`; otherwise a present instance, not owned, that wraps the
first runtime reported, or the uninitialised `vm` when none was reported. -/
theorem java_vm_t.get_created_eq (indeterminate : Ptr) (inv : Invocation) :
    java_vm_t.get_created indeterminate inv =
      some (if (inv.answer inv.trace (.JNI_GetCreatedJavaVMs 1)).status ≠ JNI_OK then none
        else some ⟨((inv.answer inv.trace (.JNI_GetCreatedJavaVMs 1)).vms.take 1).headD
          indeterminate, false⟩,
        { inv with trace := inv.trace ++ [.JNI_GetCreatedJavaVMs 1] }) := by
  simp only [java_vm_t.get_created, Invocation.call]
  split <;> rfl

/-- C18: in a process where `JNI_GetCreatedJavaVMs` succeeds and reports no runtime,
`get_created()` returns a present instance; it wraps what the uninitialised local `vm`
holds, here 99. -/
theorem get_created_present_without_runtime :
    (empty_process.answer empty_process.trace (.JNI_GetCreatedJavaVMs 1)).status = JNI_OK ∧
    (empty_process.answer empty_process.trace (.JNI_GetCreatedJavaVMs 1)).vms = [] ∧
    ((java_vm_t.get_created 99 empty_process).map fun r => (r.1, r.2.trace)) =
      some (some ⟨99, false⟩, [.JNI_GetCreatedJavaVMs 1]) := by
  decide

/-! ## Sequences of moves -/

/-- A move permutes the wrappers, up to one more wrapper in the default state. -/
theorem apply_move_perm {α : Type} [DecidableEq α] (move_assign : α → α → α × α)
    (move_ctor : α → α × α) (dflt : α) (hA : ∀ d s, move_assign d s = (s, d))
    (hC : ∀ s, move_ctor s = (s, dflt)) (ws : List α) (m : Move) :
    ∃ k, (apply_move move_assign move_ctor ws m).Perm (List.replicate k dflt ++ ws) := by
  cases m with
  | assign dst src =>
    refine ⟨0, ?_⟩
    simp only [apply_move, List.replicate_zero, List.nil_append]
    cases hd : ws[dst]? with
    | none => simp
    | some d =>
      cases hs : ws[src]? with
      | none => simp
      | some s =>
        simp only [hA]
        obtain ⟨hdl, hd1⟩ := List.getElem?_eq_some.mp hd
        obtain ⟨hsl, hs1⟩ := List.getElem?_eq_some.mp hs
        rw [List.perm_iff_count]
        intro x
        have hsl1 : src < (ws.set dst s).length := by simpa using hsl
        rw [List.count_set _ _ _ _ hsl1, List.count_set _ _ _ _ hdl]
        have hget : (ws.set dst s)[src] = s := by
          rw [List.getElem_set]
          split
          · rfl
          · exact hs1
        rw [hget, hd1]
        have hle : (if (d == x) = true then 1 else 0) ≤ List.count x ws := by
          have := List.boole_getElem_le_countP (fun y => y == x) ws dst hdl
          rw [hd1] at this
          exact this
        omega
  | construct src =>
    simp only [apply_move]
    cases hs : ws[src]? with
    | none => exact ⟨0, by simp⟩
    | some s =>
      refine ⟨1, ?_⟩
      simp only [hC]
      obtain ⟨hsl, hs1⟩ := List.getElem?_eq_some.mp hs
      rw [List.perm_iff_count]
      intro x
      rw [List.count_append, List.count_set _ _ _ _ hsl, hs1, List.count_append]
      have hle : (if (s == x) = true then 1 else 0) ≤ List.count x ws := by
        have := List.boole_getElem_le_countP (fun y => y == x) ws src hsl
        rw [hs1] at this
        exact this
      simp only [List.replicate_one, List.count_cons, List.count_nil]
      omega

/-- A sequence of moves permutes the wrappers, up to more wrappers in the default state. -/
theorem apply_moves_perm {α : Type} [DecidableEq α] (move_assign : α → α → α × α)
    (move_ctor : α → α × α) (dflt : α) (hA : ∀ d s, move_assign d s = (s, d))
    (hC : ∀ s, move_ctor s = (s, dflt)) (ms : List Move) :
    ∀ ws : List α,
      ∃ k, (apply_moves move_assign move_ctor ws ms).Perm (List.replicate k dflt ++ ws) := by
  induction ms with
  | nil => intro ws; exact ⟨0, by simp [apply_moves]⟩
  | cons m ms ih =>
    intro ws
    obtain ⟨k, hk⟩ := apply_move_perm move_assign move_ctor dflt hA hC ws m
    obtain ⟨j, hj⟩ := ih (apply_move move_assign move_ctor ws m)
    refine ⟨j + k, ?_⟩
    rw [apply_moves]
    refine hj.trans ?_
    rw [List.replicate_add, List.append_assoc]
    exact hk.append_left _

/-! ## Thread contexts -/

namespace java_env_t

theorem env_moves_perm (ws : List java_env_t) (ms : List Move) :
    ∃ k, (moves ws ms).Perm (List.replicate k default_ctor ++ ws) :=
  apply_moves_perm move_assign move_ctor default_ctor (fun _ _ => rfl) (fun _ => rfl) ms ws

/-- Destroying contexts whose owned ones have a runtime detaches once for each owned one. -/
theorem env_destroy_all_eq (ws : List java_env_t) :
    ∀ inv : Invocation, (∀ w ∈ ws, w.detach_ = true → w.vm_ ≠ 0) →
      destroy_all inv ws = some { inv with trace := inv.trace ++ detaches ws } := by
  induction ws with
  | nil => intro inv _; simp [destroy_all, destroy_each, detaches]
  | cons w ws ih =>
    intro inv hws
    have hrest : ∀ v ∈ ws, v.detach_ = true → v.vm_ ≠ 0 := fun v hv => hws v (by simp [hv])
    have ih1 := fun inv1 => ih inv1 hrest
    unfold destroy_all at ih1 ⊢
    by_cases hd : w.detach_ = true
    · have hvm : w.vm_ ≠ 0 := hws w (by simp) hd
      have e : destructor inv w =
          some { inv with trace := inv.trace ++ [.DetachCurrentThread w.vm_] } := by
        simp [destructor, hd, Invocation.call_through, Invocation.call, hvm]
      rw [destroy_each, e]
      simp only []
      rw [ih1]
      simp [detaches, List.filter_cons, hd]
    · have e : destructor inv w = some inv := by simp [destructor, hd]
      rw [destroy_each, e]
      simp only []
      rw [ih1]
      simp [detaches, List.filter_cons, hd]

theorem detaches_replicate_default (k : Nat) (ws : List java_env_t) :
    detaches (List.replicate k default_ctor ++ ws) = detaches ws := by
  induction k with
  | zero => simp
  | succ k ih =>
    rw [List.replicate_succ, List.cons_append]
    unfold detaches at ih ⊢
    rw [List.filter_cons]
    simp [default_ctor]

/-- After any moves, destroying every context involved detaches once for each context
that was owned. -/
theorem env_destroy_after_moves (inv : Invocation) (ws : List java_env_t) (ms : List Move)
    (h : ∀ w ∈ ws, w.detach_ = true → w.vm_ ≠ 0) :
    ∃ calls : List VmCall,
      destroy_all inv (moves ws ms) = some { inv with trace := inv.trace ++ calls } ∧
      calls.Perm (detaches ws) := by
  obtain ⟨k, hk⟩ := env_moves_perm ws ms
  have hall : ∀ w ∈ moves ws ms, w.detach_ = true → w.vm_ ≠ 0 := by
    intro w hw hd
    have hw1 := hk.mem_iff.mp hw
    rcases List.mem_append.mp hw1 with h1 | h1
    · have := List.eq_of_mem_replicate h1
      rw [this] at hd
      simp [default_ctor] at hd
    · exact h w h1 hd
  refine ⟨detaches (moves ws ms), env_destroy_all_eq _ inv hall, ?_⟩
  have hp : (detaches (moves ws ms)).Perm (detaches (List.replicate k default_ctor ++ ws)) :=
    (hk.filter _).map _
  rw [detaches_replicate_default] at hp
  exact hp

end java_env_t

/-! ## Runtime instances -/

namespace java_vm_t

theorem vm_options_eq (options : List (List Char)) : vm_options options = options := by
  have h : ∀ (os acc : List (List Char)),
      List.foldl (fun acc option => acc ++ [option]) acc os = acc ++ os := by
    intro os
    induction os with
    | nil => intro acc; simp
    | cons o os ih => intro acc; simp [ih]
  simpa [vm_options] using h options []

theorem vm_moves_perm (ws : List java_vm_t) (ms : List Move) :
    ∃ k, (moves ws ms).Perm (List.replicate k default_ctor ++ ws) :=
  apply_moves_perm move_assign move_ctor default_ctor (fun _ _ => rfl) (fun _ => rfl) ms ws

/-- Destroying instances whose owned ones have a runtime tears down once for each owned
one. -/
theorem vm_destroy_all_eq (ws : List java_vm_t) :
    ∀ inv : Invocation, (∀ w ∈ ws, w.destroy_ = true → w.vm_ ≠ 0) →
      destroy_all inv ws = some { inv with trace := inv.trace ++ destroys ws } := by
  induction ws with
  | nil => intro inv _; simp [destroy_all, destroy_each, destroys]
  | cons w ws ih =>
    intro inv hws
    have hrest : ∀ v ∈ ws, v.destroy_ = true → v.vm_ ≠ 0 := fun v hv => hws v (by simp [hv])
    have ih1 := fun inv1 => ih inv1 hrest
    unfold destroy_all at ih1 ⊢
    by_cases hd : w.destroy_ = true
    · have hvm : w.vm_ ≠ 0 := hws w (by simp) hd
      have e : destructor inv w =
          some { inv with trace := inv.trace ++ [.DestroyJavaVM w.vm_] } := by
        simp [destructor, hd, Invocation.call_through, Invocation.call, hvm]
      rw [destroy_each, e]
      simp only []
      rw [ih1]
      simp [destroys, List.filter_cons, hd]
    · have e : destructor inv w = some inv := by simp [destructor, hd]
      rw [destroy_each, e]
      simp only []
      rw [ih1]
      simp [destroys, List.filter_cons, hd]

theorem destroys_replicate_default (k : Nat) (ws : List java_vm_t) :
    destroys (List.replicate k default_ctor ++ ws) = destroys ws := by
  induction k with
  | zero => simp
  | succ k ih =>
    rw [List.replicate_succ, List.cons_append]
    unfold destroys at ih ⊢
    rw [List.filter_cons]
    simp [default_ctor]

/-- After any moves, destroying the first `n` instances involved succeeds and makes
teardown calls that are among those of the owned instances; destroying all of them tears
down once for each instance that was owned. -/
theorem vm_destroy_after_moves (inv : Invocation) (ws : List java_vm_t) (ms : List Move)
    (n : Nat) (h : ∀ w ∈ ws, w.destroy_ = true → w.vm_ ≠ 0) :
    (∃ calls : List VmCall,
      destroy_all inv (moves ws ms) = some { inv with trace := inv.trace ++ calls } ∧
      calls.Perm (destroys ws)) ∧
    (∃ (calls all : List VmCall),
      destroy_all inv ((moves ws ms).take n) = some { inv with trace := inv.trace ++ calls } ∧
      calls.Sublist all ∧ all.Perm (destroys ws)) := by
  obtain ⟨k, hk⟩ := vm_moves_perm ws ms
  have hall : ∀ w ∈ moves ws ms, w.destroy_ = true → w.vm_ ≠ 0 := by
    intro w hw hd
    have hw1 := hk.mem_iff.mp hw
    rcases List.mem_append.mp hw1 with h1 | h1
    · have := List.eq_of_mem_replicate h1
      rw [this] at hd
      simp [default_ctor] at hd
    · exact h w h1 hd
  have hp : (destroys (moves ws ms)).Perm (destroys ws) := by
    have hp1 : (destroys (moves ws ms)).Perm
        (destroys (List.replicate k default_ctor ++ ws)) := (hk.filter _).map _
    rw [destroys_replicate_default] at hp1
    exact hp1
  refine ⟨⟨destroys (moves ws ms), vm_destroy_all_eq _ inv hall, hp⟩, ?_⟩
  have hsub : ((moves ws ms).take n).Sublist (moves ws ms) := List.take_sublist _ _
  refine ⟨destroys ((moves ws ms).take n), destroys (moves ws ms),
    vm_destroy_all_eq _ inv (fun w hw => hall w (hsub.subset hw)), ?_, hp⟩
  exact (hsub.filter _).map _

end java_vm_t

/-! ## Attachment and creation -/

/-- What `create` does: one `JNI_CreateJavaVM` call for the version `JNI_VERSION_1_6`, with
one option per input string in input order, their number, and unrecognised options
ignored; an error exactly when the status is not `JNI_OK`; otherwise an owned instance
of the runtime stored and a borrowed context of the runtime and the context stored. -/
theorem java_vm_t.create_eq (inv : Invocation) (options : List (List Char)) :
    java_vm_t.create inv options =
      some (if (inv.answer inv.trace
            (.JNI_CreateJavaVM JNI_VERSION_1_6 options options.length true)).status ≠ JNI_OK then
          .error "Could not create VM".toList
        else .ok
          (⟨(inv.answer inv.trace
              (.JNI_CreateJavaVM JNI_VERSION_1_6 options options.length true)).vm, true⟩,
           ⟨(inv.answer inv.trace
              (.JNI_CreateJavaVM JNI_VERSION_1_6 options options.length true)).vm,
            (inv.answer inv.trace
              (.JNI_CreateJavaVM JNI_VERSION_1_6 options options.length true)).env, false⟩),
        { inv with trace := inv.trace ++
          [.JNI_CreateJavaVM JNI_VERSION_1_6 options options.length true] }) := by
  simp only [java_vm_t.create, java_vm_t.vm_options_eq, Invocation.call]
  split <;> rfl

/-- C19: on a bound runtime instance, `attach_current_thread()` makes one
`AttachCurrentThread` call and raises an error exactly when its status is not `JNI_OK`;
otherwise it yields an owned context, and after any moves among it and borrowed
contexts, destroying every context involved makes exactly one `DetachCurrentThread`
call.  `get_env()` makes one `GetEnv` call and is present exactly when its status is
`JNI_OK`; its context is borrowed, as is the one `create` returns, and after any moves
among a borrowed context and other borrowed contexts, destroying every context involved
makes no call. -/
theorem attach_detach (inv : Invocation) (v : java_vm_t) (others : List java_env_t)
    (ms : List Move) (hv : v.vm_ ≠ 0) (ho : ∀ w ∈ others, w.detach_ = false) :
    java_vm_t.attach_current_thread inv v =
      some (if (inv.answer inv.trace (.AttachCurrentThread v.vm_)).status ≠ JNI_OK then
          .error "Could not attach current thread".toList
        else .ok ⟨v.vm_, (inv.answer inv.trace (.AttachCurrentThread v.vm_)).env, true⟩,
        { inv with trace := inv.trace ++ [.AttachCurrentThread v.vm_] }) ∧
    (∀ (inv1 : Invocation) (env : Ptr),
      java_env_t.destroy_all inv1 (java_env_t.moves (⟨v.vm_, env, true⟩ :: others) ms) =
        some { inv1 with trace := inv1.trace ++ [.DetachCurrentThread v.vm_] }) ∧
    java_vm_t.get_env inv v =
      some (if (inv.answer inv.trace (.GetEnv v.vm_ JNI_VERSION_1_6)).status ≠ JNI_OK then none
        else some ⟨v.vm_, (inv.answer inv.trace (.GetEnv v.vm_ JNI_VERSION_1_6)).env, false⟩,
        { inv with trace := inv.trace ++ [.GetEnv v.vm_ JNI_VERSION_1_6] }) ∧
    (∀ (inv1 : Invocation) (options : List (List Char)) (r : java_vm_t × java_env_t),
      java_vm_t.create inv options = some (.ok r, inv1) → r.2.detach_ = false) ∧
    (∀ (inv1 : Invocation) (vm env : Ptr),
      java_env_t.destroy_all inv1 (java_env_t.moves (⟨vm, env, false⟩ :: others) ms) =
        some inv1) := by
  have hdet : ∀ c : java_env_t, java_env_t.detaches (c :: others) =
      if c.detach_ then [.DetachCurrentThread c.vm_] else [] := by
    intro c
    have h0 : others.filter (fun w => w.detach_) = [] := by
      rw [List.filter_eq_nil_iff]
      intro w hw
      simp [ho w hw]
    unfold java_env_t.detaches
    rw [List.filter_cons, h0]
    split <;> rfl
  refine ⟨?_, ?_, ?_, ?_, ?_⟩
  · simp only [java_vm_t.attach_current_thread, Invocation.call_through, Invocation.call, hv,
      if_false]
    split <;> rfl
  · intro inv1 env
    obtain ⟨calls, h1, h2⟩ := java_env_t.env_destroy_after_moves inv1
      (⟨v.vm_, env, true⟩ :: others) ms (by
        intro w hw hd
        rcases List.mem_cons.mp hw with h | h
        · rw [h]; exact hv
        · rw [ho w h] at hd; exact absurd hd (by decide))
    rw [hdet] at h2
    have : calls = [.DetachCurrentThread v.vm_] := List.perm_singleton.mp h2
    rw [h1, this]
  · simp only [java_vm_t.get_env, Invocation.call_through, Invocation.call, hv, if_false]
    split <;> rfl
  · intro inv1 options r h
    rw [java_vm_t.create_eq] at h
    split at h
    · simp at h
    · simp at h
      rw [← h.1]
  · intro inv1 vm env
    obtain ⟨calls, h1, h2⟩ := java_env_t.env_destroy_after_moves inv1
      (⟨vm, env, false⟩ :: others) ms (by
        intro w hw hd
        rcases List.mem_cons.mp hw with h | h
        · rw [h] at hd; simp at hd
        · rw [ho w h] at hd; exact absurd hd (by decide))
    rw [hdet] at h2
    have : calls = [] := List.perm_nil.mp h2
    rw [h1, this]
    simp

/-- C19, at a run: a thread is attached to the runtime 7; the owned context is moved into
a new context and then assigned over a default-constructed one, and destroying the three
contexts detaches once. -/
theorem attach_detach_witness :
    (java_vm_t.ctor 7 false).vm_ ≠ 0 ∧
    (∀ w ∈ [java_env_t.default_ctor], w.detach_ = false) ∧
    java_vm_t.attach_current_thread running_process (java_vm_t.ctor 7 false) =
      some (.ok ⟨7, 8, true⟩,
        { running_process with trace := [.AttachCurrentThread 7] }) ∧
    java_env_t.destroy_all { running_process with trace := [.AttachCurrentThread 7] }
        (java_env_t.moves [⟨7, 8, true⟩, java_env_t.default_ctor]
          [.construct 0, .assign 1 2]) =
      some { running_process with
        trace := [.AttachCurrentThread 7] ++ [.DetachCurrentThread 7] } :=
  ⟨by decide, by decide,
    (attach_detach running_process (java_vm_t.ctor 7 false) [java_env_t.default_ctor]
      [.construct 0, .assign 1 2] (by decide) (by decide)).1,
    (attach_detach running_process (java_vm_t.ctor 7 false) [java_env_t.default_ctor]
      [.construct 0, .assign 1 2] (by decide) (by decide)).2.1
      { running_process with trace := [.AttachCurrentThread 7] } 8⟩

/-- C20: `create(options)` makes one `JNI_CreateJavaVM` call with one option per input
string in input order and their number, and raises an error exactly when its status is
not `JNI_OK`; otherwise it returns an owned instance and a borrowed context, and building
the pair makes no further call.  After any moves among the owned instance and instances
that are not owned, destroying some of the instances involved makes at most one
`DestroyJavaVM` call, and destroying all of them makes exactly one. -/
theorem create_destroy (inv : Invocation) (options : List (List Char))
    (others : List java_vm_t) (ms : List Move) (ho : ∀ w ∈ others, w.destroy_ = false) :
    java_vm_t.create inv options =
      some (if (inv.answer inv.trace
            (.JNI_CreateJavaVM JNI_VERSION_1_6 options options.length true)).status ≠ JNI_OK then
          .error "Could not create VM".toList
        else .ok
          (⟨(inv.answer inv.trace
              (.JNI_CreateJavaVM JNI_VERSION_1_6 options options.length true)).vm, true⟩,
           ⟨(inv.answer inv.trace
              (.JNI_CreateJavaVM JNI_VERSION_1_6 options options.length true)).vm,
            (inv.answer inv.trace
              (.JNI_CreateJavaVM JNI_VERSION_1_6 options options.length true)).env, false⟩),
        { inv with trace := inv.trace ++
          [.JNI_CreateJavaVM JNI_VERSION_1_6 options options.length true] }) ∧
    (∀ (inv1 : Invocation) (vm : Ptr), vm ≠ 0 →
      java_vm_t.destroy_all inv1 (java_vm_t.moves (⟨vm, true⟩ :: others) ms) =
        some { inv1 with trace := inv1.trace ++ [.DestroyJavaVM vm] }) ∧
    (∀ (inv1 : Invocation) (vm : Ptr) (n : Nat), vm ≠ 0 →
      ∃ calls : List VmCall,
        java_vm_t.destroy_all inv1 ((java_vm_t.moves (⟨vm, true⟩ :: others) ms).take n) =
          some { inv1 with trace := inv1.trace ++ calls } ∧
        calls.Sublist [.DestroyJavaVM vm]) := by
  have hdes : ∀ vm : Ptr, java_vm_t.destroys (⟨vm, true⟩ :: others) = [.DestroyJavaVM vm] := by
    intro vm
    have h0 : others.filter (fun w => w.destroy_) = [] := by
      rw [List.filter_eq_nil_iff]
      intro w hw
      simp [ho w hw]
    unfold java_vm_t.destroys
    rw [List.filter_cons, h0]
    rfl
  have hown : ∀ vm : Ptr, vm ≠ 0 →
      ∀ w ∈ (⟨vm, true⟩ :: others : List java_vm_t), w.destroy_ = true → w.vm_ ≠ 0 := by
    intro vm hvm w hw hd
    rcases List.mem_cons.mp hw with h | h
    · rw [h]; exact hvm
    · rw [ho w h] at hd; exact absurd hd (by decide)
  refine ⟨java_vm_t.create_eq inv options, ?_, ?_⟩
  · intro inv1 vm hvm
    obtain ⟨⟨calls, h1, h2⟩, _⟩ :=
      java_vm_t.vm_destroy_after_moves inv1 (⟨vm, true⟩ :: others) ms 0 (hown vm hvm)
    rw [hdes] at h2
    rw [h1, List.perm_singleton.mp h2]
  · intro inv1 vm n hvm
    obtain ⟨_, calls, all, h1, h2, h3⟩ :=
      java_vm_t.vm_destroy_after_moves inv1 (⟨vm, true⟩ :: others) ms n (hown vm hvm)
    rw [hdes] at h3
    rw [List.perm_singleton.mp h3] at h2
    exact ⟨calls, h1, h2⟩

/-- C20, at a run: a runtime is created with two options; the owned instance is moved into
a new instance and then assigned over a default-constructed one, and destroying the
three instances tears the runtime down once. -/
theorem create_destroy_witness :
    (∀ w ∈ [java_vm_t.default_ctor], w.destroy_ = false) ∧
    java_vm_t.create running_process ["-Xmx64m".toList, "-verbose".toList] =
      some (.ok (⟨7, true⟩, ⟨7, 8, false⟩),
        { running_process with
          trace := [.JNI_CreateJavaVM JNI_VERSION_1_6 ["-Xmx64m".toList, "-verbose".toList]
            2 true] }) ∧
    java_vm_t.destroy_all running_process
        (java_vm_t.moves [⟨7, true⟩, java_vm_t.default_ctor] [.construct 0, .assign 1 2]) =
      some { running_process with trace := [.DestroyJavaVM 7] } :=
  ⟨by decide,
    (create_destroy running_process ["-Xmx64m".toList, "-verbose".toList]
      [java_vm_t.default_ctor] [.construct 0, .assign 1 2] (by decide)).1,
    (create_destroy running_process ["-Xmx64m".toList, "-verbose".toList]
      [java_vm_t.default_ctor] [.construct 0, .assign 1 2] (by decide)).2.1
      running_process 7 (by decide)⟩

/-! ## Direct buffer views -/

/-- C21, as stated, fails: for a handle that is not a direct buffer the capacity query
reports -1, and `size()` of the view built from it on a platform with a 64-bit `size_t`
is 18446744073709551615. -/
theorem buffer_size_of_failed_capacity :
    java_result .long (not_a_direct_buffer.answer [.GetDirectBufferAddress 5]
      (.GetDirectBufferCapacity 5)) = -1 ∧
    ((java_byte_buffer_t.ctor 64 not_a_direct_buffer 1 5).map
      fun r => (r.1.data, r.1.size, r.1.empty, r.2.trace)) =
      some (0, 18446744073709551615, false,
        [.GetDirectBufferAddress 5, .GetDirectBufferCapacity 5]) := by
  decide

/-- The address arithmetic of `end()` wraps at the width of `size_t`: for a buffer of 16
bytes at 18446744073709551608 with a 64-bit `size_t`, `end()` is 8. -/
theorem buffer_end_wraps :
    ((java_byte_buffer_t.ctor 64 direct_buffer_at_top 1 5).map
      fun r => (r.1.begin, r.1.size, r.1.end_ 64)) =
      some (18446744073709551608, 16, 8) := by
  decide

/-- C21, amended: a direct buffer view built from a runtime handle through a bound context
makes exactly two runtime calls, the address query and then the capacity query, both at
construction; the accessors read the stored members only.  `data()` and `begin()` return
the reported address and `size()` returns the reported capacity converted to `size_t`:
the capacity itself when it is not negative and fits, the largest `size_t` for the
failure value -1.  For every capacity the runtime can report, -1 included, `empty()`
holds exactly when the capacity is 0, and `end()` is `begin()` advanced by the capacity
in the address arithmetic of the machine, which wraps at the width of `size_t`. -/
theorem buffer_view (size_bits : Nat) (rt : Runtime) (env handle address : Ptr)
    (capacity : Int) (hs : size_bits = 32 ∨ size_bits = 64) (henv : env ≠ 0)
    (ha : address = rt.answer rt.trace (.GetDirectBufferAddress handle))
    (hc : capacity = java_result .long
      (rt.answer (rt.trace ++ [.GetDirectBufferAddress handle])
        (.GetDirectBufferCapacity handle))) :
    ∃ (b : java_byte_buffer_t) (rt2 : Runtime),
      java_byte_buffer_t.ctor size_bits rt env handle = some (b, rt2) ∧
      rt2.trace = rt.trace ++ [.GetDirectBufferAddress handle, .GetDirectBufferCapacity handle] ∧
      b.env_ = env ∧ b.handle_ = handle ∧
      b.data = address ∧ b.begin = address ∧
      (b.size : Int) = to_unsigned size_bits capacity ∧
      (0 ≤ capacity → capacity < 2 ^ size_bits → (b.size : Int) = capacity) ∧
      (capacity = -1 → (b.size : Int) = 2 ^ size_bits - 1) ∧
      (-(2 ^ size_bits) < capacity → capacity < 2 ^ size_bits →
        (b.empty = true ↔ capacity = 0)) ∧
      (b.end_ size_bits : Int) = to_unsigned size_bits ((b.begin : Int) + capacity) ∧
      (0 ≤ (b.begin : Int) + capacity → (b.begin : Int) + capacity < 2 ^ size_bits →
        (b.end_ size_bits : Int) = (b.begin : Int) + capacity) := by
  have hpos : (0 : Int) < 2 ^ size_bits := by positivity
  have hnn : 0 ≤ to_unsigned size_bits capacity := by
    unfold to_unsigned
    exact Int.emod_nonneg _ (ne_of_gt hpos)
  have hsize : ((to_unsigned size_bits capacity).toNat : Int) = to_unsigned size_bits capacity :=
    Int.toNat_of_nonneg hnn
  have hend : (((address + (to_unsigned size_bits capacity).toNat) % 2 ^ size_bits : Nat) : Int) =
      to_unsigned size_bits ((address : Int) + capacity) := by
    push_cast
    rw [hsize]
    unfold to_unsigned
    exact Int.add_emod_emod _ _ _
  refine ⟨⟨java_object_t.ctor env handle, address, (to_unsigned size_bits capacity).toNat⟩,
    { rt with trace := rt.trace ++
      [.GetDirectBufferAddress handle, .GetDirectBufferCapacity handle] }, ?_, rfl, rfl, rfl,
    rfl, rfl, hsize, ?_, ?_, ?_, hend, ?_⟩
  · simp [java_byte_buffer_t.ctor, Runtime.call_eq _ _ _ henv, ha, hc]
  · intro h0 h1
    simp only [java_byte_buffer_t.size]
    rw [hsize]
    unfold to_unsigned
    exact Int.emod_eq_of_lt h0 h1
  · intro hm
    simp only [java_byte_buffer_t.size]
    rw [hsize]
    unfold to_unsigned
    rcases hs with h | h <;> rw [hm, h] <;> norm_num
  · intro h0 h1
    have hz : to_unsigned size_bits capacity = 0 ↔ capacity = 0 := by
      unfold to_unsigned
      constructor
      · intro h
        have hdvd : (2 : Int) ^ size_bits ∣ capacity := Int.dvd_of_emod_eq_zero h
        obtain ⟨k, hk⟩ := hdvd
        have hk0 : k = 0 := by
          by_contra hne
          rcases lt_or_gt_of_ne hne with hlt | hgt
          · have : k ≤ -1 := by omega
            have : (2 : Int) ^ size_bits * k ≤ 2 ^ size_bits * (-1) :=
              Int.mul_le_mul_of_nonneg_left this (le_of_lt hpos)
            omega
          · have : 1 ≤ k := by omega
            have : (2 : Int) ^ size_bits * 1 ≤ 2 ^ size_bits * k :=
              Int.mul_le_mul_of_nonneg_left this (le_of_lt hpos)
            omega
        rw [hk, hk0, mul_zero]
      · intro h
        rw [h]
        simp
    simp only [java_byte_buffer_t.empty, beq_iff_eq]
    constructor
    · intro h
      apply hz.mp
      rw [← hsize, h]
      rfl
    · intro h
      have := hz.mpr h
      rw [this]
      rfl
  · intro h0 h1
    simp only [java_byte_buffer_t.begin] at h0 h1
    simp only [java_byte_buffer_t.end_, java_byte_buffer_t.begin]
    rw [hend]
    unfold to_unsigned
    exact Int.emod_eq_of_lt h0 h1

/-- C21, amended, at a run: the view of a direct buffer of 16 bytes at 4096 makes the two
queries and spans 4096 to 4112. -/
theorem buffer_view_witness :
    ((64 : Nat) = 32 ∨ (64 : Nat) = 64) ∧ (1 : Ptr) ≠ 0 ∧
    ((java_byte_buffer_t.ctor 64 direct_buffer_16 1 5).map
      fun r => (r.1.data, r.1.size, r.1.empty, r.1.begin, r.1.end_ 64)) =
      some (4096, 16, false, 4096, 4112) ∧
    ∃ (b : java_byte_buffer_t) (rt2 : Runtime),
      java_byte_buffer_t.ctor 64 direct_buffer_16 1 5 = some (b, rt2) ∧
      rt2.trace = direct_buffer_16.trace ++
        [.GetDirectBufferAddress 5, .GetDirectBufferCapacity 5] ∧
      b.env_ = 1 ∧ b.handle_ = 5 ∧
      b.data = 4096 ∧ b.begin = 4096 ∧
      (b.size : Int) = to_unsigned 64 16 ∧
      ((0 : Int) ≤ 16 → (16 : Int) < 2 ^ 64 → (b.size : Int) = 16) ∧
      ((16 : Int) = -1 → (b.size : Int) = 2 ^ 64 - 1) ∧
      (-(2 ^ 64) < (16 : Int) → (16 : Int) < 2 ^ 64 → (b.empty = true ↔ (16 : Int) = 0)) ∧
      (b.end_ 64 : Int) = to_unsigned 64 ((b.begin : Int) + 16) ∧
      (0 ≤ (b.begin : Int) + 16 → (b.begin : Int) + 16 < 2 ^ 64 →
        (b.end_ 64 : Int) = (b.begin : Int) + 16) :=
  ⟨Or.inr rfl, by decide, by decide,
    buffer_view 64 direct_buffer_16 1 5 4096 16 (Or.inr rfl) (by decide) rfl (by decide)⟩

/-! ## Argument packing -/

/-- What the `return` statements reached by the argument packing give: as many entries as
arguments, in the order of the arguments, entry `i` being the marshalled value of
argument `i` in the member of `jvalue` of its runtime representation (`z b c s i j f d`
for the eight primitive kinds, `l` for an object). -/
theorem argument_packing_reached (args : List Argument) :
    (args.map java_marshall_argument_value).length = args.length ∧
    (∀ (i : Nat) (h : i < args.length),
      (args.map java_marshall_argument_value)[i]? =
        some (java_marshall_argument_value (args.get ⟨i, h⟩))) ∧
    (∀ v : Int,
      java_marshall_argument_value (.primitive .bool v) =
        .z (java_type_info_t.marshall .bool v) ∧
      java_marshall_argument_value (.primitive .unsigned_char v) =
        .b (java_type_info_t.marshall .unsigned_char v) ∧
      java_marshall_argument_value (.primitive .char v) =
        .c (java_type_info_t.marshall .char v) ∧
      java_marshall_argument_value (.primitive .short v) =
        .s (java_type_info_t.marshall .short v) ∧
      java_marshall_argument_value (.primitive .int v) =
        .i (java_type_info_t.marshall .int v) ∧
      java_marshall_argument_value (.primitive .long v) =
        .j (java_type_info_t.marshall .long v) ∧
      java_marshall_argument_value (.primitive .float v) =
        .f (java_type_info_t.marshall .float v) ∧
      java_marshall_argument_value (.primitive .double v) =
        .d (java_type_info_t.marshall .double v)) ∧
    (∀ o : java_object_t, java_marshall_argument_value (.object o) = .l o.handle_) := by
  refine ⟨by simp, ?_, fun _ => ⟨rfl, rfl, rfl, rfl, rfl, rfl, rfl, rfl⟩, fun _ => rfl⟩
  intro i h
  simp [List.getElem?_map, List.getElem?_eq_getElem h]

/-- The packing is instantiated without error exactly for object arguments, for which it
gives the handles in order. -/
theorem argv_instantiated_objects (os : List java_object_t) :
    argv_instantiated (os.map .object) = some (os.map fun o => .l o.handle_) := by
  induction os with
  | nil => rfl
  | cons o os ih =>
    simp only [List.map_cons, argv_instantiated, ih]
    rfl

/-- C22: for an argument of type `int` the statements instantiated in
`java_marshall_argument_value<int>` are `return jvalue{.i = result};` and, after it,
`return jvalue{.l = result};`, which initialises the pointer member from a `jint`: the
instantiation is ill-formed and no argument sequence is packed.  The same holds for each
of the eight primitive kinds, while an object argument is packed in the member `l`. -/
theorem argument_packing_ill_formed_for_primitives :
    instantiated_returns (Argument.primitive .int 5).type = [.i, .l] ∧
    initialises (Argument.primitive .int 5).type .l = false ∧
    java_marshall_argument_value_instantiated (.primitive .int 5) = none ∧
    argv_instantiated [.object (java_object_t.ctor 1 9), .primitive .int 5] = none ∧
    argv_instantiated [.object (java_object_t.ctor 1 9), .object (java_object_t.ctor 1 4)] =
      some [.l 9, .l 4] ∧
    (∀ (K : Primitive) (v : Int),
      java_marshall_argument_value_instantiated (.primitive K v) = none) :=
  ⟨by decide, by decide, by decide, by decide, by decide, fun K _ => by cases K <;> rfl⟩

/-! ## Call operators of the method handles -/

/-- What the call operators do: the one of an instance method handle is its `call`; the one
of a static method handle makes the same runtime call as its `call` and leaves the
result to chance. -/
theorem call_operator_eq (indeterminate : Int) (p : Platform) (K : Primitive) (rt : Runtime)
    (m : java_method_t) (sm : java_static_method_t) (receiver : java_object_t)
    (args : List Argument) :
    java_method_t.operator_call p K rt m receiver args =
      java_method_t.call p K rt m receiver args ∧
    java_static_method_t.operator_call indeterminate p K rt sm args =
      (java_static_method_t.call p K rt sm args).map fun r => (indeterminate, r.2) := by
  refine ⟨rfl, ?_⟩
  unfold java_static_method_t.operator_call
  cases java_static_method_t.call p K rt sm args <;> rfl

/-- C23: a static method handle of shape `int()` whose `CallStaticIntMethodA` call returns
5 returns 5 through `call()`; through its call operator it makes the same single runtime
call, and the caller finds what happens to be in place of the result, here 0, not 5.  An
instance method handle returns 5 both ways. -/
theorem static_call_operator_drops_result :
    ((java_static_method_t.call ⟨true, 64⟩ .int (constant_runtime 5) ⟨⟨1, 20, 30⟩⟩ []).map
      fun r => (r.1, r.2.trace)) = some (5, [.CallStaticMethodA .int 20 30 []]) ∧
    ((java_static_method_t.operator_call 0 ⟨true, 64⟩ .int (constant_runtime 5)
        ⟨⟨1, 20, 30⟩⟩ []).map
      fun r => (r.1, r.2.trace)) = some (0, [.CallStaticMethodA .int 20 30 []]) ∧
    ((java_method_t.call ⟨true, 64⟩ .int (constant_runtime 5) ⟨⟨1, 20, 30⟩⟩
        (java_object_t.ctor 1 9) []).map
      fun r => (r.1, r.2.trace)) = some (5, [.CallMethodA .int 9 30 []]) ∧
    ((java_method_t.operator_call ⟨true, 64⟩ .int (constant_runtime 5) ⟨⟨1, 20, 30⟩⟩
        (java_object_t.ctor 1 9) []).map
      fun r => (r.1, r.2.trace)) = some (5, [.CallMethodA .int 9 30 []]) := by
  decide

end Jnitl
